import Mathlib

/-
  Verification of the BATSim traffic simulator (smart-facility/BATSim).

  Shallow embedding of the C++ sources:
    * `src/include/FiboHeap.hpp`   — Fibonacci heap (Erel Segal's pointer
      implementation, embedded as an arena of nodes addressed by indices;
      NULL pointers become `none`, `delete`/structure-removal is tracked by
      the `freed` flag, C++ exceptions and undefined behaviour both become
      `none`).
    * `src/include/Network.hpp`, `src/src/Network.cpp` — road network, the
      three path planners, the BPR travel-time function, the coordinate
      shuffle.
    * `src/include/Strategy.hpp`, `src/src/Strategy.cpp` — reroute predicate.
    * `src/include/Individual.hpp`, `src/src/Individual.cpp` — agent state.
    * `src/src/Model.cpp` — the per-tick event processing (`Model::step`).

  Modelling conventions:
    * C++ `float`/`double` arithmetic is modelled over `ℚ` (exact rational
      arithmetic); the float literal `0.15f` of the BPR formula is read as
      the rational 15/100 and `std::numeric_limits<float>::max()` as the
      exact value (2 - 2⁻²³)·2¹²⁷ of `FLT_MAX`.
    * `std::map` becomes an association list; the entries are listed in the
      map's iteration order (sorted by key in C++).  `at` (which throws on a
      missing key) becomes `mapFind?` with failure `none`; `operator[]`
      (which default-constructs a missing entry) becomes `mapFindD` with the
      default value — inserting the default and reading it back is
      observationally the lookup-with-default since none of the embedded
      routines iterates over a map it mutates.
    * unbounded C++ loops (`while`/`do … while`) are embedded with an
      explicit fuel that the function derives from the size of its own
      state; fuel exhaustion (i.e. divergence of the C++ loop) yields
      `none`.
-/

set_option maxRecDepth 100000

namespace BATSim

/-! ### Association-list model of `std::map` / `std::set` -/

/-- Lookup in a `std::map`, modelling `.at(k)` (first entry with key `k`). -/
def mapFind? {κ α : Type} [DecidableEq κ] (m : List (κ × α)) (k : κ) : Option α :=
  match m with
  | [] => none
  | (k', v) :: t => if k' = k then some v else mapFind? t k

/-- Lookup with default, modelling `operator[]` on a map that is read. -/
def mapFindD {κ α : Type} [DecidableEq κ] (m : List (κ × α)) (k : κ) (d : α) : α :=
  (mapFind? m k).getD d

/-- Assignment `m[k] = v` through `operator[]`: replaces the first binding of
`k`, appends a new binding when `k` is absent. -/
def mapSet {κ α : Type} [DecidableEq κ] (m : List (κ × α)) (k : κ) (v : α) :
    List (κ × α) :=
  match m with
  | [] => [(k, v)]
  | (k', v') :: t => if k' = k then (k, v) :: t else (k', v') :: mapSet t k v

/-- In-place update of an existing entry (`.at(k) = …` / setter call on
`at`): replaces the first binding of `k`, no insertion when absent. -/
def mapModify {κ α : Type} [DecidableEq κ] (m : List (κ × α)) (k : κ) (f : α → α) :
    List (κ × α) :=
  match m with
  | [] => []
  | (k', v') :: t =>
    if k' = k then (k', f v') :: t else (k', v') :: mapModify t k f

/-- `std::set<std::string>::insert`; only membership is ever queried. -/
def setInsert (s : List String) (x : String) : List String :=
  if x ∈ s then s else x :: s

/-! ### Data model: `Node`, `Link`, `Trip`, `Strategy` (Network.hpp,
Trip.hpp, Strategy.hpp) -/

/-- `Node` (Network.hpp).  `x`,`y` are the mutable coordinates, `xData`,
`yData` the saved physical coordinates used by the A* heuristic.  The
municipality `_indicators` map is irrelevant to every routine embedded here
and is omitted. -/
structure Node where
  id : String
  x : ℚ
  y : ℚ
  links_out_id : List String
  x_data : ℚ
  y_data : ℚ
  deriving Repr, DecidableEq

/-- `Link` (Network.hpp).  `n_agents` is the `unsigned int` occupancy
counter. -/
structure Link where
  id : String
  start_node_id : String
  end_node_id : String
  length : ℚ
  n_agents : ℕ
  free_flow_time : ℚ
  capacity : ℚ
  deriving Repr, DecidableEq

/-- Default-constructed `Link()` (used by `_Links[...]` on a missing key). -/
def defaultLink : Link :=
  { id := "0", start_node_id := "0", end_node_id := "0", length := 0,
    n_agents := 0, free_flow_time := 0, capacity := 0 }

/-- `Link::increaseAgents` : `_n_agents++` on an `unsigned int`. -/
def Link.increaseAgents (l : Link) : Link :=
  { l with n_agents := (l.n_agents + 1) % 2 ^ 32 }

/-- `Link::decrementAgents` : `_n_agents--` on an `unsigned int` (wraps to
`2^32 - 1` at zero). -/
def Link.decrementAgents (l : Link) : Link :=
  { l with n_agents := (l.n_agents + (2 ^ 32 - 1)) % 2 ^ 32 }

/-- `Link::timeOnLink` (Network.cpp): the BPR travel time
`t_free · (1 + 0.15 · (n/c)⁴)`.  `_n_agents / _capacity` is a float
division (the `unsigned int` is promoted); over `ℚ`, division by a zero
capacity yields 0 where C++ floats produce `inf`/`nan` — no claim involves a
zero-capacity link. -/
def Link.timeOnLink (l : Link) : ℚ :=
  l.free_flow_time * (1 + 15 / 100 * ((l.n_agents : ℚ) / l.capacity) ^ 4)

/-- `Trip` (Trip.hpp). -/
structure Trip where
  id_origin : String
  id_destination : String
  starting_time : ℚ
  deriving Repr, DecidableEq

/-- `Strategy` (Strategy.hpp): precomputed `sin α`, `cos α`, threshold `θ`
and the optimized flag. -/
structure Strategy where
  sin_alpha : ℚ
  cos_alpha : ℚ
  theta : ℚ
  optimized : Bool
  deriving Repr, DecidableEq

/-- `Strategy::Strategy()` — the default, non-optimized strategy. -/
def Strategy.default : Strategy :=
  { sin_alpha := 0, cos_alpha := 0, theta := 0, optimized := false }

/-- `Strategy::computeStrategy` (Strategy.cpp):
`(x1·cos α + x2·sin α) − θ > 0`. -/
def Strategy.computeStrategy (s : Strategy) (x1 x2 : ℚ) : Bool :=
  if (x1 * s.cos_alpha + x2 * s.sin_alpha) - s.theta > 0 then true else false

/-- `std::numeric_limits<float>::max()` = (2 − 2⁻²³)·2¹²⁷, exactly. -/
def floatMax : ℚ := (2 ^ 24 - 1) * 2 ^ 104

/-- `std::numeric_limits<float>::max() * 0.5f` — exactly representable. -/
def floatMaxHalf : ℚ := floatMax / 2

/-! ### Fibonacci heap (FiboHeap.hpp)

The pointer-based heap is embedded as an arena: nodes live in an array and
every `FibonacciHeapNode*` becomes an array index (`Option Nat` where the
pointer may be `NULL`).  `delete` (and the removal of the last node, which
the C++ code leaks without deleting) sets the `freed` flag — a freed node is
no longer part of the heap.  Exceptions (`throw string(…)`) and undefined
behaviour (dereferencing `NULL` or a dangling pointer, out-of-bounds vector
access, divergence of a loop whose fuel is exhausted) are `none`. -/

/-- `FibonacciHeapNode<Data,Key>` (FiboHeap.hpp).  `previous`/`next` form the
circular doubly linked list and are never `NULL`; `child`/`parent` may be. -/
structure FibonacciHeapNode (Data Key : Type) where
  myKey : Key
  myData : Data
  degree : ℕ
  mark : Bool
  previous : ℕ
  next : ℕ
  child : Option ℕ
  parent : Option ℕ
  freed : Bool
  deriving Repr, DecidableEq

/-- The node arena standing for the C++ free store: the node at position
`i` is the object a `FibonacciHeapNode*` with value `i` points to. -/
abbrev Arena (Data Key : Type) := List (FibonacciHeapNode Data Key)

namespace FibonacciHeapNode

variable {Data Key : Type} [Inhabited Data] [Inhabited Key]

instance : Inhabited (FibonacciHeapNode Data Key) :=
  ⟨{ myKey := default, myData := default, degree := 0, mark := false,
     previous := 0, next := 0, child := none, parent := none,
     freed := false }⟩

/-- Read a node of the arena (reads through a pointer). -/
def getN (a : Arena Data Key) (i : ℕ) : FibonacciHeapNode Data Key :=
  a.getD i default

/-- Write through a pointer: update node `i` of the arena. -/
def modifyN (a : Arena Data Key) (i : ℕ)
    (f : FibonacciHeapNode Data Key → FibonacciHeapNode Data Key) :
    Arena Data Key :=
  a.set i (f (getN a i))

/-- `FibonacciHeapNode::isSingle` : `this == this->next`. -/
def isSingle (a : Arena Data Key) (i : ℕ) : Bool :=
  (getN a i).next = i

/-- `FibonacciHeapNode::insert(other)` — splice the circular list of `other`
after `this`.  The four pointer assignments are executed sequentially, each
reading the arena as left by the previous one, exactly as in C++. -/
def insert (a : Arena Data Key) (this : ℕ) (other : Option ℕ) :
    Arena Data Key :=
  match other with
  | none => a
  | some o =>
    -- this->next->previous = other->previous;
    let a1 := modifyN a (getN a this).next
      (fun n => { n with previous := (getN a o).previous })
    -- other->previous->next = this->next;
    let a2 := modifyN a1 (getN a1 o).previous
      (fun n => { n with next := (getN a1 this).next })
    -- this->next = other;
    let a3 := modifyN a2 this (fun n => { n with next := o })
    -- other->previous = this;
    modifyN a3 o (fun n => { n with previous := this })

/-- `FibonacciHeapNode::remove` — unlink `this` from its circular list. -/
def remove (a : Arena Data Key) (this : ℕ) : Arena Data Key :=
  -- this->previous->next = this->next;
  let a1 := modifyN a (getN a this).previous
    (fun n => { n with next := (getN a this).next })
  -- this->next->previous = this->previous;
  let a2 := modifyN a1 (getN a1 this).next
    (fun n => { n with previous := (getN a1 this).previous })
  -- this->next = this->previous = this;
  modifyN a2 this (fun n => { n with next := this, previous := this })

/-- `FibonacciHeapNode::addChild` (Fibonacci-Heap-Link). -/
def addChild (a : Arena Data Key) (this other : ℕ) : Arena Data Key :=
  let a1 :=
    match (getN a this).child with
    | none => modifyN a this (fun n => { n with child := some other })
    | some c => insert a c (some other)
  let a2 := modifyN a1 other (fun n => { n with parent := some this,
                                                mark := false })
  modifyN a2 this (fun n => { n with degree := n.degree + 1 })

/-- `FibonacciHeapNode::removeChild`; the two `throw string(…)` branches are
`none`.  `degree--` is an `unsigned int` decrement: it wraps at zero. -/
def removeChild (a : Arena Data Key) (this other : ℕ) :
    Option (Arena Data Key) :=
  if (getN a other).parent ≠ some this then none
  else
    let step1 : Option (Arena Data Key) :=
      if isSingle a other then
        if (getN a this).child ≠ some other then none
        else some (modifyN a this (fun n => { n with child := none }))
      else
        let a1 :=
          if (getN a this).child = some other then
            modifyN a this (fun n => { n with child := some (getN a other).next })
          else a
        some (remove a1 other)
    match step1 with
    | none => none
    | some a2 =>
      let a3 := modifyN a2 other (fun n => { n with parent := none,
                                                    mark := false })
      some (modifyN a3 this
        (fun n => { n with degree := (n.degree + (2 ^ 32 - 1)) % 2 ^ 32 }))

end FibonacciHeapNode

/-- `FibonacciHeap<Data,Key>` (FiboHeap.hpp). -/
structure FibonacciHeap (Data Key : Type) where
  arena : Arena Data Key
  rootWithMinKey : Option ℕ
  count : ℕ
  maxDegree : ℕ
  deriving Repr

namespace FibonacciHeap

open FibonacciHeapNode

variable {Data Key : Type} [Inhabited Data] [Inhabited Key]
variable [LinearOrder Key]

/-- `FibonacciHeap()` — the empty heap. -/
def empty : FibonacciHeap Data Key :=
  { arena := [], rootWithMinKey := none, count := 0, maxDegree := 0 }

/-- `FibonacciHeap::insertNode` — hang a detached tree root into the root
list, updating the minimum pointer. -/
def insertNode (h : FibonacciHeap Data Key) (idx : ℕ) :
    FibonacciHeap Data Key :=
  match h.rootWithMinKey with
  | none => { h with rootWithMinKey := some idx }
  | some r =>
    let a := FibonacciHeapNode.insert h.arena r (some idx)
    if (getN a idx).myKey < (getN a r).myKey then
      { h with arena := a, rootWithMinKey := some idx }
    else
      { h with arena := a }

/-- `FibonacciHeap::insert(d, k)` — allocate a fresh singleton node and hang
it into the root list; returns the handle (`PNode`) of the new node. -/
def insert (h : FibonacciHeap Data Key) (d : Data) (k : Key) :
    FibonacciHeap Data Key × ℕ :=
  let idx := h.arena.length
  let node : FibonacciHeapNode Data Key :=
    { myKey := k, myData := d, degree := 0, mark := false,
      previous := idx, next := idx, child := none, parent := none,
      freed := false }
  let h1 : FibonacciHeap Data Key :=
    { h with arena := h.arena ++ [node], count := h.count + 1 }
  (insertNode h1 idx, idx)

/-- `FibonacciHeap::empty()`. -/
def isEmpty (h : FibonacciHeap Data Key) : Bool := h.count = 0

/-- `FibonacciHeap::minimum()` — the root with minimal key; `throw` when the
heap is empty becomes `none`. -/
def minimum (h : FibonacciHeap Data Key) : Option ℕ :=
  h.rootWithMinKey

/-- Phase 1 helper of `deletemin`: the
`do { c->parent = NULL; c = c->next; } while (c != child)` loop. -/
def clearParents (a : Arena Data Key) (stop : ℕ) (c : ℕ) (fuel : ℕ) :
    Option (Arena Data Key) :=
  match fuel with
  | 0 => none
  | fuel + 1 =>
    let a1 := modifyN a c (fun n => { n with parent := none })
    let c1 := (getN a1 c).next
    if c1 = stop then some a1 else clearParents a1 stop c1 fuel

/-- Inner `while (degreeRoots[currentDegree] != NULL)` loop of the
consolidation phase of `deletemin`. -/
def mergeLoop (a : Arena Data Key) (dr : List (Option ℕ))
    (current currentDegree : ℕ) (fuel : ℕ) :
    Option (Arena Data Key × List (Option ℕ) × ℕ × ℕ) :=
  match fuel with
  | 0 => none
  | fuel + 1 =>
    if currentDegree ≥ dr.length then none -- out-of-bounds vector access
    else
      match dr.getD currentDegree none with
      | none => some (a, dr, current, currentDegree)
      | some other =>
        -- if (current->key() > other->key()) swap(other, current);
        let pair :=
          if (getN a current).myKey > (getN a other).myKey then
            (other, current)
          else (current, other)
        let cur := pair.1
        let oth := pair.2
        let a1 := FibonacciHeapNode.remove a oth
        let a2 := addChild a1 cur oth
        let dr1 := dr.set currentDegree none
        let cd1 := currentDegree + 1
        let dr2 := if cd1 ≥ dr1.length then dr1 ++ [none] else dr1
        mergeLoop a2 dr2 cur cd1 fuel

/-- Outer `do … while (currentPointer != rootWithMinKey)` loop of the
consolidation phase of `deletemin`. -/
def consolidateLoop (a : Arena Data Key) (dr : List (Option ℕ))
    (root cur : ℕ) (fuel : ℕ) :
    Option (Arena Data Key × List (Option ℕ)) :=
  match fuel with
  | 0 => none
  | fuel + 1 =>
    let currentDegree := (getN a cur).degree
    let currentPointer := (getN a cur).next
    match mergeLoop a dr cur currentDegree (dr.length + a.length + 2) with
    | none => none
    | some (a1, dr1, current, cd) =>
      -- degreeRoots[currentDegree] = current;
      if cd ≥ dr1.length then none         -- out-of-bounds vector access
      else
        let dr2 := dr1.set cd (some current)
        if currentPointer = root then some (a1, dr2)
        else consolidateLoop a1 dr2 root currentPointer fuel

/-- Phase 3 of `deletemin`: re-hang every consolidated tree into a fresh
root list, recomputing `maxDegree`. -/
def rebuildRoots (h : FibonacciHeap Data Key) (dr : List (Option ℕ)) :
    FibonacciHeap Data Key :=
  let res := dr.foldl
    (fun (acc : FibonacciHeap Data Key × ℕ × ℕ) entry =>
      let h0 := acc.1
      let newMax := acc.2.1
      let d := acc.2.2
      match entry with
      | none => (h0, newMax, d + 1)
      | some idx =>
        let a := modifyN h0.arena idx
          (fun n => { n with next := idx, previous := idx })
        let h1 := insertNode { h0 with arena := a } idx
        ((h1, if d > newMax then d else newMax, d + 1)))
    (h, 0, 0)
  { res.1 with maxDegree := res.2.1 }

/-- `FibonacciHeap::deletemin` (Fibonacci-Heap-Extract-Min).  The member
`count--` is an `unsigned int` decrement, but it is guarded by the non-empty
root, so it never wraps on a consistent heap; the removal of the last node
returns early without `delete` (the C++ code leaks it) — the model marks it
`freed` because it leaves the heap either way. -/
def deletemin (h : FibonacciHeap Data Key) : Option (FibonacciHeap Data Key) :=
  match h.rootWithMinKey with
  | none => none                            -- throw "trying to remove …"
  | some r =>
    let count1 := h.count - 1
    -- Phase 1: make all the removed root's children new roots.
    let phase1 : Option (Arena Data Key) :=
      match (getN h.arena r).child with
      | none => some h.arena
      | some c0 =>
        match clearParents h.arena c0 c0 (h.arena.length + 1) with
        | none => none
        | some a1 =>
          let a2 := modifyN a1 r (fun n => { n with child := none })
          some (FibonacciHeapNode.insert a2 r (some c0))
    match phase1 with
    | none => none
    | some a =>
      -- Phase 2-a: deleting the last key.
      if (getN a r).next = r then
        if count1 ≠ 0 then none             -- throw "Internal error …"
        else
          some { arena := modifyN a r (fun n => { n with freed := true }),
                 rootWithMinKey := none, count := 0,
                 maxDegree := h.maxDegree }
      else
        -- Phase 2: merge roots with the same degree.
        let dr0 : List (Option ℕ) := List.replicate (h.maxDegree + 250) none
        match consolidateLoop a dr0 r (getN a r).next (a.length + 1) with
        | none => none
        | some (a1, dr1) =>
          -- Phase 3: delete the current root, recompute the minimum.
          let a2 := modifyN a1 r (fun n => { n with freed := true })
          let h1 : FibonacciHeap Data Key :=
            { arena := a2, rootWithMinKey := none, count := count1,
              maxDegree := h.maxDegree }
          some (rebuildRoots h1 dr1)

/-- Cascading-cut loop of `decreaseKey`. -/
def cascadeCut (h : FibonacciHeap Data Key) (node parent : ℕ) (fuel : ℕ) :
    Option (FibonacciHeap Data Key) :=
  match fuel with
  | 0 => none
  | fuel + 1 =>
    match removeChild h.arena parent node with
    | none => none
    | some a1 =>
      let h1 := insertNode { h with arena := a1 } node
      match (getN h1.arena parent).parent with
      | none => some h1                     -- parent is a root
      | some gp =>
        if (getN h1.arena parent).mark = false then
          some { h1 with
                 arena := modifyN h1.arena parent
                   (fun n => { n with mark := true }) }
        else
          cascadeCut h1 parent gp fuel

/-- `FibonacciHeap::decreaseKey`; `throw "Trying to decrease key to a
greater key"` becomes `none`, as does the `NULL` dereference of
`rootWithMinKey` on a heap that has no root while owning a live node. -/
def decreaseKey (h : FibonacciHeap Data Key) (node : ℕ) (newKey : Key) :
    Option (FibonacciHeap Data Key) :=
  if newKey > (getN h.arena node).myKey then none
  else
    let a := modifyN h.arena node (fun n => { n with myKey := newKey })
    let h0 : FibonacciHeap Data Key := { h with arena := a }
    match (getN a node).parent with
    | none =>
      match h0.rootWithMinKey with
      | none => none                        -- NULL dereference
      | some r =>
        if newKey < (getN a r).myKey then
          some { h0 with rootWithMinKey := some node }
        else some h0
    | some p =>
      if (getN a p).myKey ≤ newKey then some h0
      else cascadeCut h0 node p (a.length + 1)

/-- Shift every pointer of a node by `off` (relocation of the second arena
during `merge`). -/
def shiftNode (off : ℕ) (n : FibonacciHeapNode Data Key) :
    FibonacciHeapNode Data Key :=
  { n with previous := n.previous + off, next := n.next + off,
           child := n.child.map (· + off), parent := n.parent.map (· + off) }

/-- `FibonacciHeap::merge` — splice the other heap's root list into this
one.  The C++ body dereferences `rootWithMinKey` before any emptiness test,
so merging into an empty heap is undefined behaviour: `none`. -/
def merge (h other : FibonacciHeap Data Key) : Option (FibonacciHeap Data Key) :=
  match h.rootWithMinKey with
  | none => none                            -- NULL dereference
  | some r =>
    let off := h.arena.length
    let a0 := h.arena ++ other.arena.map (shiftNode off)
    let otherRoot := other.rootWithMinKey.map (· + off)
    let a1 := FibonacciHeapNode.insert a0 r otherRoot
    let newRoot : Option ℕ :=
      match otherRoot with
      | some o =>
        if (getN a1 o).myKey < (getN a1 r).myKey then some o else some r
      | none => some r
    some { arena := a1, rootWithMinKey := newRoot,
           count := h.count + other.count, maxDegree := h.maxDegree }

/-- `FibonacciHeap::getCount`. -/
def getCount (h : FibonacciHeap Data Key) : ℕ := h.count

end FibonacciHeap

/-- The multiset of items held in an arena: its live (not freed) nodes. -/
def arenaElems {Data Key : Type} (a : Arena Data Key) :
    Multiset (Data × Key) :=
  ((a.filter (fun n => n.freed = false)).map
    (fun n => (n.myData, n.myKey)) : List (Data × Key))

/-- The multiset of items held by the heap. -/
def FibonacciHeap.elems {Data Key : Type}
    (h : FibonacciHeap Data Key) : Multiset (Data × Key) :=
  arenaElems h.arena

/-! ### Network and the three path planners (Network.hpp / Network.cpp) -/

/-- `Network` (Network.hpp): keyed collections of nodes and links, listed in
the map's iteration order.  The cached bounding box plays no part in any
embedded routine and is omitted. -/
structure Network where
  nodes : List (String × Node)
  links : List (String × Link)
  deriving Repr, DecidableEq

namespace Network

open FibonacciHeapNode FibonacciHeap

/-- `Network::incrementAgentOnLink` : `_Links.at(id).increaseAgents()`. -/
def incrementAgentOnLink (net : Network) (aLinkId : String) : Option Network :=
  match mapFind? net.links aLinkId with
  | none => none                            -- .at throws
  | some _ =>
    some { net with links := mapModify net.links aLinkId Link.increaseAgents }

/-- `Network::decrementAgentOnLink` : `_Links.at(id).decrementAgents()`. -/
def decrementAgentOnLink (net : Network) (aLinkId : String) : Option Network :=
  match mapFind? net.links aLinkId with
  | none => none                            -- .at throws
  | some _ =>
    some { net with links := mapModify net.links aLinkId Link.decrementAgents }

/-- `Network::euclidian_distance` (Network.cpp): despite its name, the L1
distance on the saved physical coordinates `x_data`/`y_data`. -/
def euclidian_distance (net : Network) (source_id dest_id : String) :
    Option ℚ :=
  match mapFind? net.nodes dest_id, mapFind? net.nodes source_id with
  | some nd, some ns =>
    some (|nd.x_data - ns.x_data| + |nd.y_data - ns.y_data|)
  | _, _ => none                            -- _Nodes.at throws

/-- `std::map::insert(make_pair(k,v))` — keeps the existing binding when the
key is already present (used to build `Q_nodes`). -/
def mapInsertKeep {κ α : Type} [DecidableEq κ] (m : List (κ × α)) (k : κ) (v : α) :
    List (κ × α) :=
  if (mapFind? m k).isSome then m else m ++ [(k, v)]

/-- Relaxation fold of the plain Dijkstra loop (`for j` over
`i->getLinksOutId()`, Network.cpp lines 73–93). -/
def dijkstraRelax (net : Network) (fastest : Bool) (d : ℚ)
    (marked : List String) (qnodes : List (String × ℕ)) :
    List String → FibonacciHeap String ℚ → List (String × String) →
    Option (FibonacciHeap String ℚ × List (String × String))
  | [], h, prec => some (h, prec)
  | j :: rest, h, prec =>
    let lnk := mapFindD net.links j defaultLink   -- _Links[...]
    let id := lnk.end_node_id
    if id ∈ marked then dijkstraRelax net fastest d marked qnodes rest h prec
    else
      match mapFind? qnodes id with
      | none => none          -- Q_nodes[id] is NULL; ->key() dereferences it
      | some idx =>
        let key_j := (getN h.arena idx).myKey
        let w_ij := (if fastest then lnk.free_flow_time else lnk.length) + d
        if w_ij < key_j then
          match h.decreaseKey idx w_ij with
          | none => none
          | some h1 =>
            dijkstraRelax net fastest d marked qnodes rest h1
              (mapSet prec id j)
        else dijkstraRelax net fastest d marked qnodes rest h prec

/-- Main Dijkstra loop of `Network::computePath` (Network.cpp lines 62–98);
returns the predecessor map. -/
def computePathLoop (net : Network) (fastest : Bool) (dest_id : String) :
    ℕ → FibonacciHeap String ℚ → List (String × ℕ) → List String →
    List (String × String) → String → Option (List (String × String))
  | 0, _, _, _, _, _ => none
  | fuel + 1, h, qnodes, marked, prec, curr_node =>
    if curr_node = dest_id then some prec
    else
      match h.rootWithMinKey with
      | none => none                        -- Q.minimum() throws
      | some r =>
        let curr1 := (getN h.arena r).myData
        let d := (getN h.arena r).myKey
        match mapFind? net.nodes curr1 with
        | none => none                      -- _Nodes.at throws
        | some i =>
          let marked1 := setInsert marked curr1
          match dijkstraRelax net fastest d marked1 qnodes
              i.links_out_id h prec with
          | none => none
          | some (h1, prec1) =>
            match h1.deletemin with
            | none => none
            | some h2 =>
              computePathLoop net fastest dest_id fuel h2 qnodes marked1
                prec1 curr1

/-- Path reconstruction (`do { … } while (curr_node != source_id)`,
Network.cpp lines 102–107 and 211–216). -/
def reconstructPath (net : Network) (prec : List (String × String))
    (source_id : String) :
    ℕ → String → List String → Option (List String)
  | 0, _, _ => none
  | fuel + 1, curr_node, result =>
    match mapFind? prec curr_node with
    | none => none                          -- prec.at throws
    | some linkId =>
      let result1 := result ++ [linkId]     -- result.push_back
      match mapFind? net.links linkId with
      | none => none                        -- _Links.at throws
      | some lnk =>
        if lnk.start_node_id = source_id then some result1
        else reconstructPath net prec source_id fuel lnk.start_node_id result1

/-- `Network::computePath(source, dest, fastest)` (Network.cpp lines
39–111): plain Dijkstra.  Every node is first inserted with key `FLT_MAX`,
then the source is inserted a second time with key 0 (the stale `FLT_MAX`
copy of the source stays in the heap, exactly as in C++). -/
def computePath (net : Network) (source_id dest_id : String)
    (fastest : Bool) : Option (List String) :=
  let z := net.nodes.foldl
    (fun (acc : FibonacciHeap String ℚ × List (String × ℕ)) p =>
      let r := acc.1.insert p.1 floatMax
      (r.1, mapInsertKeep acc.2 p.1 r.2))
    (FibonacciHeap.empty, [])
  let r0 := z.1.insert source_id 0
  let qnodes := mapSet z.2 source_id r0.2
  let marked := setInsert [] source_id
  match computePathLoop net fastest dest_id (net.nodes.length + 3) r0.1
      qnodes marked [] source_id with
  | none => none
  | some prec =>
    reconstructPath net prec source_id (net.links.length + 2) dest_id []

/-- Relaxation fold of the A* loop (`for j` over `i->getLinksOutId()`,
Network.cpp lines 183–204). -/
def astarRelax (net : Network) (fastest : Bool) (dest_id : String) (d : ℚ)
    (closed : List String) :
    List String → FibonacciHeap String ℚ → List (String × ℕ) →
    List (String × ℚ) → List (String × String) →
    Option (FibonacciHeap String ℚ × List (String × ℕ) ×
            List (String × ℚ) × List (String × String))
  | [], h, qnodes, g_score, prec => some (h, qnodes, g_score, prec)
  | j :: rest, h, qnodes, g_score, prec =>
    let lnk := mapFindD net.links j defaultLink   -- _Links[...]
    let id := lnk.end_node_id
    if id ∈ closed then
      astarRelax net fastest dest_id d closed rest h qnodes g_score prec
    else
      let w_ij := (if fastest then lnk.free_flow_time else lnk.length) + d
      if (mapFind? qnodes id).isNone ∨ w_ij < mapFindD g_score id 0 then
        let prec1 := mapSet prec id j
        let g1 := mapSet g_score id w_ij
        match euclidian_distance net id dest_id with
        | none => none
        | some hd =>
          let f_score := w_ij + hd
          match mapFind? qnodes id with
          | some idx =>
            match h.decreaseKey idx f_score with
            | none => none
            | some h1 =>
              astarRelax net fastest dest_id d closed rest h1 qnodes g1 prec1
          | none =>
            let r := h.insert id f_score
            astarRelax net fastest dest_id d closed rest r.1
              (mapSet qnodes id r.2) g1 prec1
      else
        astarRelax net fastest dest_id d closed rest h qnodes g_score prec

/-- Main loop of `Network::computePathAStar` (Network.cpp lines 169–207). -/
def astarLoop (net : Network) (fastest : Bool) (dest_id : String) :
    ℕ → FibonacciHeap String ℚ → List (String × ℕ) → List String →
    List (String × ℚ) → List (String × String) → String →
    Option (List (String × String))
  | 0, _, _, _, _, _, _ => none
  | fuel + 1, h, qnodes, closed, g_score, prec, curr_node =>
    if curr_node = dest_id then some prec
    else
      match h.rootWithMinKey with
      | none => none                        -- Q_open.minimum() throws
      | some r =>
        let curr1 := (getN h.arena r).myData
        match mapFind? net.nodes curr1 with
        | none => none                      -- _Nodes.at throws
        | some i =>
          let closed1 := setInsert closed curr1
          let d := mapFindD g_score curr1 0
          match h.deletemin with
          | none => none
          | some h1 =>
            match astarRelax net fastest dest_id d closed1
                i.links_out_id h1 qnodes g_score prec with
            | none => none
            | some (h2, qnodes2, g2, prec2) =>
              astarLoop net fastest dest_id fuel h2 qnodes2 closed1 g2
                prec2 curr1

/-- `Network::computePathAStar` (Network.cpp lines 145–220). -/
def computePathAStar (net : Network) (source_id dest_id : String)
    (fastest : Bool) : Option (List String) :=
  if source_id = dest_id then some []
  else
    match euclidian_distance net source_id dest_id with
    | none => none
    | some h0 =>
      let r0 := FibonacciHeap.empty.insert source_id h0
      let qnodes := mapSet [] source_id r0.2
      let g_score := mapSet [] source_id 0
      match astarLoop net fastest dest_id
          (net.nodes.length + net.links.length + 3) r0.1 qnodes [] g_score
          [] source_id with
      | none => none
      | some prec =>
        reconstructPath net prec source_id (net.links.length + 2) dest_id []

/-- Set the cost (free-flow time when `fastest`, length otherwise) of one
link. -/
def setLinkCost (net : Network) (linkId : String) (fastest : Bool)
    (v : ℚ) : Network :=
  { net with
    links := mapModify net.links linkId
      (fun l => if fastest then { l with free_flow_time := v }
                else { l with length := v }) }

/-- `Network::computePath(source, dest, link_id_to_avoid, fastest)`
(Network.cpp lines 114–143): inflate the avoided link's cost to
`FLT_MAX * 0.5f`, run A*, restore the saved cost.  Returns the network
after the restoring writes together with the A* result; when A* throws, the
exception propagates before the restoring writes, which the model reports
as `none`. -/
def computePathAvoid (net : Network) (source_id dest_id : String)
    (link_id_to_avoid : String) (fastest : Bool) :
    Option (Network × List String) :=
  match mapFind? net.links link_id_to_avoid with
  | none => none                            -- _Links.at throws
  | some lnk =>
    let init_data_link := if fastest then lnk.free_flow_time else lnk.length
    let net1 := setLinkCost net link_id_to_avoid fastest floatMaxHalf
    match computePathAStar net1 source_id dest_id fastest with
    | none => none
    | some result =>
      some (setLinkCost net1 link_id_to_avoid fastest init_data_link, result)

/-- `Network::shuffleNodesCoordinates` (Network.cpp lines 235–274).  The
seeded generator `Ranq1 rnd(0)` is constructed but never drawn from (the
random branch is commented out); `n_proc` stands for
`RepastProcess::instance()->worldSize()`.  Each node, in iteration order,
saves its physical coordinates into `x_data`/`y_data` and receives the
partitioning coordinate `((cur_node % n_proc) + 0.5, 0.5)`. -/
def shuffleNodesAux (n_proc : ℕ) :
    List (String × Node) → ℕ → List (String × Node)
  | [], _ => []
  | p :: rest, cur_node =>
    let n := p.2
    -- saving original data
    let n1 := { n with x_data := n.x, y_data := n.y }
    -- computing the new coordinates
    let node_proc := cur_node % n_proc
    let n2 := { n1 with x := (node_proc : ℚ) + 1/2, y := (1 : ℚ)/2 }
    (p.1, n2) :: shuffleNodesAux n_proc rest (cur_node + 1)

/-- The `for (auto& n : _Nodes)` loop of `shuffleNodesCoordinates`, started
at `cur_node = 0`. -/
def shuffleNodesCoordinates (net : Network) (n_proc : ℕ) : Network :=
  { net with nodes := shuffleNodesAux n_proc net.nodes 0 }

/-- Total edge cost of a path under the cost flag (sum of free-flow times
when `fastest`, of lengths otherwise), reading links as the planners do. -/
def pathCost (net : Network) (fastest : Bool) (path : List String) : ℚ :=
  (path.map (fun j =>
    let lnk := mapFindD net.links j defaultLink
    if fastest then lnk.free_flow_time else lnk.length)).sum

end Network

/-! ### Agent (`Individual.hpp` / `Individual.cpp`) -/

/-- `Individual` (Individual.hpp): per-driver state.  The path is kept in
reverse traversal order — the next link to enter is the last element. -/
structure Individual where
  id : ℤ
  trips : List Trip
  x : ℚ
  y : ℚ
  remaining_time : ℚ
  strategy : Strategy
  path : List String
  en_route : Bool
  at_node : Bool
  cur_link : String
  size : ℤ
  cur_trip_duration_theo : ℚ
  n_path_performed : ℤ
  n_link_in_path : ℤ
  deriving Repr, DecidableEq

namespace Individual

/-- `Individual::getNextLinkAndRemove` : `_path.back()` (undefined on an
empty vector — `none`), `pop_back`, `_n_link_in_path++`. -/
def getNextLinkAndRemove (ag : Individual) : Option (String × Individual) :=
  match ag.path.getLast? with
  | none => none
  | some link =>
    some (link, { ag with path := ag.path.dropLast,
                          n_link_in_path := ag.n_link_in_path + 1 })

/-- `Individual::isRerouting` (Individual.cpp lines 158–175).  `x1` reads
`_trips.front()` only when `_cur_trip_duration_theo > 0` (UB on an empty
trip vector — `none`); `x2` reads the link `_cur_link` through
`getLinks().at` (throw — `none`).  The strategy is consulted only when
`x2 > 0`. -/
def isRerouting (ag : Individual) (network : Network)
    (simulation_time : ℚ) : Option Bool :=
  let x1? : Option ℚ :=
    if ag.cur_trip_duration_theo > 0 then
      match ag.trips.head? with
      | none => none
      | some t =>
        some ((simulation_time - t.starting_time) / ag.cur_trip_duration_theo)
    else some 0
  match x1? with
  | none => none
  | some x1 =>
    match mapFind? network.links ag.cur_link with
    | none => none
    | some lnk =>
      let x2 := (lnk.n_agents : ℚ) / lnk.capacity
      if x2 > 0 then some (ag.strategy.computeStrategy x1 x2)
      else some false

/-- `Individual::setNextTrip` (Individual.cpp lines 178–207): drop the
finished trip, plan the next one with the plain `computePath` (default
`fastest = true`), park the agent at the new origin. -/
def setNextTrip (ag : Individual) (network : Network) (time : ℚ) :
    Option Individual :=
  let trips1 := ag.trips.drop 1            -- _trips.erase(_trips.begin())
  match trips1.head? with
  | none => none                           -- _trips.front() on empty: UB
  | some trip =>
    match network.computePath trip.id_origin trip.id_destination true with
    | none => none
    | some path =>
      match mapFind? network.nodes trip.id_origin with
      | none => none                       -- getNodes().at throws
      | some node =>
        some { ag with
               trips := trips1, path := path, x := node.x, y := node.y,
               en_route := false, at_node := true,
               cur_trip_duration_theo := 0,
               remaining_time := max (trip.starting_time - time) 0,
               n_path_performed := ag.n_path_performed + 1,
               n_link_in_path := 0 }

/-- `Individual::decreaseRemainingTime` : clamped at 0. -/
def decreaseRemainingTime (ag : Individual) (time : ℚ) : Individual :=
  { ag with remaining_time := max (ag.remaining_time - time) 0 }

/-- `Individual::increaseTripDurationTheo`. -/
def increaseTripDurationTheo (ag : Individual) (time : ℚ) : Individual :=
  { ag with cur_trip_duration_theo := ag.cur_trip_duration_theo + time }

end Individual

/-! ### The engine tick (`Model::step`, Model.cpp lines 558–822)

Single-worker embedding.  The model keeps the simulation state that the
step mutates: the network (link occupancies), the aggregate counters, the
trip-start log, the fitness map and the local agents.  Pure outputs — the
`_links_load_over_time` / `_links_state_snapshot` recording arrays, the
per-move csv log, the continuous-space mirror of the agent coordinates and
the (single-worker, hence empty) migration map — are not part of the
state. -/

/-- `Model` state mutated by `Model::step` (Model.hpp). -/
structure Model where
  network : Network
  time : ℚ
  time_tolerance : ℚ
  total_agents : ℤ
  total_moving_agents : ℤ
  total_trips_performed : ℤ
  total_rerouting : ℤ
  trips_starting_time : List ℚ
  map_agent_fitness : List (ℤ × ℚ)
  agents : List Individual
  deriving Repr, DecidableEq

namespace Model

/-- The reroute decision of the depart-node transition (Model.cpp lines
645–646): `strategy.isOptimized() == true && isRerouting(network, time) ==
true`, with the C++ short-circuit — `isRerouting` is not evaluated for a
non-optimized strategy. -/
def rerouteDecision (ag : Individual) (network : Network) (time : ℚ) :
    Option Bool :=
  if ag.strategy.optimized then ag.isRerouting network time else some false

/-- Depart-node processing from the link pop onward (Model.cpp lines
637–680), shared by both entries into the at-node branch: pop the next
planned link, evaluate the reroute strategy (replacing the path when it
fires and the node has more than one outgoing link), then enter the link.
`m1`/`ag1` are the state after the start-of-trip bookkeeping. -/
def departNodeCore (m1 : Model) (ag1 : Individual) :
    Option (Model × Individual) :=
  match ag1.getNextLinkAndRemove with
  | none => none
  | some (id_next_link0, ag2p) =>
    let ag2 := { ag2p with cur_link := id_next_link0 }
    match rerouteDecision ag2 m1.network m1.time with
    | none => none
    | some doReroute =>
      let afterStrategy : Option (Model × Individual × String) :=
        if doReroute then
          -- incrementing the number of rerouting
          let m2 := { m1 with total_rerouting := m1.total_rerouting + 1 }
          match mapFind? m2.network.links ag2.cur_link with
          | none => none                    -- getLinks().at throws
          | some lnk =>
            let cur_node_id := lnk.start_node_id
            match mapFind? m2.network.nodes cur_node_id with
            | none => none                  -- getNodes().at throws
            | some node =>
              if node.links_out_id.length > 1 then
                match ag2.trips.head? with
                | none => none              -- getTrips().front() on empty: UB
                | some trip =>
                  match m2.network.computePathAvoid cur_node_id
                      trip.id_destination id_next_link0 true with
                  | none => none
                  | some (net2, new_path) =>
                    let m3 := { m2 with network := net2 }
                    let ag3 := { ag2 with path := new_path }
                    match ag3.getNextLinkAndRemove with
                    | none => none
                    | some (id2, ag4) =>
                      some (m3, { ag4 with cur_link := id2 }, id2)
              else some (m2, ag2, id_next_link0)
        else some (m1, ag2, id_next_link0)
      match afterStrategy with
      | none => none
      | some (m4, ag5, id_next_link) =>
        match mapFind? m4.network.links id_next_link with
        | none => none                      -- getLinks().at throws
        | some lnkN =>
          -- updating agent theoretical travel time
          let ag6 := ag5.increaseTripDurationTheo lnkN.free_flow_time
          -- setRemainingTime( … .timeOnLink() )  — before the increment
          let ag7 := { ag6 with remaining_time := lnkN.timeOnLink }
          match m4.network.incrementAgentOnLink id_next_link with
          | none => none
          | some net3 =>
            -- link-density recording and the moves log are pure outputs
            some ({ m4 with network := net3 }, ag7)

/-- Depart-node branch of the step loop (Model.cpp lines 626–681): the
agent is at a node; start the trip if needed, then `departNodeCore`. -/
def departNode (m : Model) (ag0 : Individual) :
    Option (Model × Individual) :=
  -- agent is starting a new trip
  let start :=
    if ag0.en_route = false then
      ({ m with total_moving_agents := m.total_moving_agents + 1,
                trips_starting_time := m.trips_starting_time ++ [m.time] },
       { ag0 with en_route := true })
    else (m, ag0)
  departNodeCore start.1 { start.2 with at_node := false }

/-- Arrive-node branch of the step loop (Model.cpp lines 683–768): the
agent finished traversing its current link.  Returns the updated state and
the agent, or `none` in place of the agent when it retired. -/
def arriveNode (m : Model) (ag0 : Individual) :
    Option (Model × Option Individual) :=
  if ag0.path.length > 0 then
    -- moving to next node: decrement previous link, jump to its end node
    let id_prev_link := ag0.cur_link
    match m.network.decrementAgentOnLink id_prev_link with
    | none => none
    | some net1 =>
      let m1 := { m with network := net1 }
      match mapFind? m1.network.links id_prev_link with
      | none => none                        -- getLinks().at throws
      | some lnkP =>
        match mapFind? m1.network.nodes lnkP.end_node_id with
        | none => none                      -- getNodes().at throws
        | some newNode =>
          some (m1, some { ag0 with x := newNode.x, y := newNode.y,
                                    at_node := true })
  else
    -- agent reached the end of the current trip
    match ag0.trips.head? with
    | none => none                          -- getTrips().front() on empty: UB
    | some trip =>
      let trip_duration_teo := ag0.cur_trip_duration_theo
      let trip_duration_sim := m.time - trip.starting_time
      let fitness := trip_duration_teo / trip_duration_sim
      let m1 := { m with
        map_agent_fitness :=
          match mapFind? m.map_agent_fitness ag0.id with
          | none => mapSet m.map_agent_fitness ag0.id fitness
          | some old =>
            mapSet m.map_agent_fitness ag0.id ((old + fitness) * (1/2)),
        total_trips_performed := m.total_trips_performed + 1,
        total_moving_agents := m.total_moving_agents - 1 }
      match m1.network.decrementAgentOnLink ag0.cur_link with
      | none => none
      | some net1 =>
        let m2 := { m1 with network := net1 }
        if ag0.trips.length > 1 then
          match ag0.setNextTrip m2.network m2.time with
          | none => none
          | some ag1 => some (m2, some ag1)
        else
          some (m2, none)                   -- mark agent for removal

/-- One iteration of the agent loop of `Model::step`: decrement the
remaining time by the tick length (1 second), dispatch the transition when
it is within the tolerance. -/
def processAgent (m : Model) (ag : Individual) :
    Option (Model × Option Individual) :=
  let ag1 := ag.decreaseRemainingTime 1    -- global_remaining_time = 1.0f
  if ag1.remaining_time ≤ m.time_tolerance then
    if ag1.at_node = true then
      match departNode m ag1 with
      | none => none
      | some (m1, ag2) => some (m1, some ag2)
    else arriveNode m ag1
  else
    some (m, some ag1)

/-- The agent loop of `Model::step`, in local order; removed agents leave
the context. -/
def stepAgents (m : Model) :
    List Individual → List Individual → Option (Model × List Individual)
  | [], acc => some (m, acc)
  | ag :: rest, acc =>
    match processAgent m ag with
    | none => none
    | some (m1, keep) =>
      stepAgents m1 rest
        (match keep with | some a => acc ++ [a] | none => acc)

/-- `Model::step` (single worker): advance the clock by the fixed 1-second
tick (the adaptive-tick block is disabled in the source), run the agent
loop, refresh the `total_agents` aggregate.  The snapshot block and the
data-collection sink only write recording buffers, and `synch_agents` moves
no one when the world has one process. -/
def step (m : Model) : Option Model :=
  let m1 := { m with time := m.time + 1 }
  match stepAgents m1 m1.agents [] with
  | none => none
  | some (m2, agents') =>
    some { m2 with agents := agents',
                   total_agents := (agents'.length : ℤ) }

end Model

/-! ### Heap construction sequences and extraction (for the heap-order
property) -/

/-- An operation of the heap construction phase: an `insert(d, k)` or a
`decreaseKey(handle, k)` where `handle` is the `PNode` returned by the
`j`-th insert executed so far. -/
inductive HeapOp (Data Key : Type) where
  | ins (d : Data) (k : Key)
  | dec (j : ℕ) (k : Key)

/-- Run a construction sequence from a heap, collecting the handles the
inserts return; a `decreaseKey` against a never-returned handle, or with a
key above the node's current key, fails. -/
def applyOps {Data Key : Type} [Inhabited Data] [Inhabited Key]
    [LinearOrder Key] :
    List (HeapOp Data Key) → FibonacciHeap Data Key → List ℕ →
    Option (FibonacciHeap Data Key × List ℕ)
  | [], h, hs => some (h, hs)
  | .ins d k :: rest, h, hs =>
    let r := h.insert d k
    applyOps rest r.1 (hs ++ [r.2])
  | .dec j k :: rest, h, hs =>
    match hs.get? j with
    | none => none
    | some idx =>
      match h.decreaseKey idx k with
      | none => none
      | some h1 => applyOps rest h1 hs

/-- Repeatedly read `minimum()` and call `deletemin()` until the heap is
`empty()` (`count == 0`), returning the items in extraction order. -/
def extractAll {Data Key : Type} [Inhabited Data] [Inhabited Key]
    [LinearOrder Key] (h : FibonacciHeap Data Key) (fuel : ℕ) :
    Option (List (Data × Key)) :=
  match fuel with
  | 0 => if h.count = 0 then some [] else none
  | fuel + 1 =>
    if h.count = 0 then some []
    else
      match h.rootWithMinKey with
      | none => none                        -- minimum() throws
      | some r =>
        let item := ((FibonacciHeapNode.getN h.arena r).myData,
                     (FibonacciHeapNode.getN h.arena r).myKey)
        match h.deletemin with
        | none => none
        | some h1 =>
          match extractAll h1 fuel with
          | none => none
          | some rest => some (item :: rest)

/-! ### State invariants of the engine (spec §3 / §8 P1) -/

/-- An agent is counted on a link when it is currently traversing it:
`en_route ∧ ¬at_node ∧ cur_link = ℓ`. -/
def countedOn (ag : Individual) (linkId : String) : Bool :=
  ag.en_route && !ag.at_node && ag.cur_link == linkId

/-- Number of agents of the list counted on a link. -/
def occCount (agents : List Individual) (linkId : String) : ℕ :=
  (agents.filter (fun a => countedOn a linkId)).length

/-- Invariant of the agent loop: every link entry found in the map carries
the number of agents of the list counted on it. -/
def linksAgentsInv (links : List (String × Link))
    (agents : List Individual) : Prop :=
  ∀ (k : String) (lnk : Link), mapFind? links k = some lnk →
    lnk.n_agents = occCount agents k

/-- Every agent of the list that is on a link is en route, and its current
link is a key of the link map. -/
def agentsKeysOk (links : List (String × Link))
    (agents : List Individual) : Prop :=
  ∀ a ∈ agents, a.at_node = false →
    a.en_route = true ∧ (mapFind? links a.cur_link).isSome = true

namespace Model

/-- Spec invariant 4: every link's occupancy counter equals the number of
local agents counted on it. -/
def linkInvariant (m : Model) : Prop :=
  ∀ p ∈ m.network.links, p.2.n_agents = occCount m.agents p.1

/-- Spec invariants 2/3: an agent that is not at a node is en route and its
current link is a link of the network. -/
def agentInvariant (m : Model) : Prop :=
  ∀ a ∈ m.agents, a.at_node = false →
    a.en_route = true ∧ (mapFind? m.network.links a.cur_link).isSome = true

/-- The agent invariants of the spec, together with the well-formedness of
the link map (unique keys) and the bound that keeps the 32-bit occupancy
counters away from wrap-around. -/
def agentInvariants (m : Model) : Prop :=
  linkInvariant m ∧ agentInvariant m ∧
  (m.network.links.map Prod.fst).Nodup ∧ m.agents.length < 2 ^ 32

/-- Sum of the occupancy counters over all links. -/
def totalOccupancy (m : Model) : ℕ :=
  (m.network.links.map (fun p => p.2.n_agents)).sum

/-- Number of local agents with `en_route ∧ ¬at_node`. -/
def movingCount (m : Model) : ℕ :=
  (m.agents.filter (fun a => a.en_route && !a.at_node)).length

end Model

/-! ### Concrete example inputs -/

/-- A node of a concrete network (constructor `Node(id, x, y)` followed by
`addLinkOutId`; `_x_data`/`_y_data` are initialised to the physical
coordinates). -/
def mkNode (id : String) (x y : ℚ) (out : List String) : Node :=
  { id := id, x := x, y := y, links_out_id := out, x_data := x, y_data := y }

/-- A link of a concrete network. -/
def mkLink (id s e : String) (len fft cap : ℚ) (n : ℕ) : Link :=
  { id := id, start_node_id := s, end_node_id := e, length := len,
    n_agents := n, free_flow_time := fft, capacity := cap }

/-- Four-node network on which the A* heuristic overestimates: the physical
coordinates put `A` at L1-distance 10 from the destination `D` although the
cheap path `S→A→D` has total length 2, while `B` sits at distance 0 on the
expensive path `S→B→D` of total length 9/2.  `D` is reachable from `S`
through both paths. -/
def exNet1 : Network :=
  { nodes := [("A", mkNode "A" 10 0 ["ad"]),
              ("B", mkNode "B" 0 0 ["bd"]),
              ("D", mkNode "D" 0 0 []),
              ("S", mkNode "S" 0 0 ["sa", "sb"])],
    links := [("ad", mkLink "ad" "A" "D" 1 (1/10) 100 0),
              ("bd", mkLink "bd" "B" "D" 3 (3/10) 100 0),
              ("sa", mkLink "sa" "S" "A" 1 (1/10) 100 0),
              ("sb", mkLink "sb" "S" "B" (3/2) (3/20) 100 0)] }

/-- Two-node network: one link of free-flow time 100 s and capacity 2. -/
def exNet2 : Network :=
  { nodes := [("A", mkNode "A" 0 0 ["l1"]), ("B", mkNode "B" 1 0 [])],
    links := [("l1", mkLink "l1" "A" "B" 1000 100 2 0)] }

/-- Agent about to start the trip `A → B` of `exNet2`. -/
def exAgent2 : Individual :=
  { id := 1, trips := [⟨"A", "B", 0⟩], x := 0, y := 0, remaining_time := 0,
    strategy := Strategy.default, path := ["l1"], en_route := false,
    at_node := true, cur_link := "", size := 1, cur_trip_duration_theo := 0,
    n_path_performed := 1, n_link_in_path := 0 }

/-- Model state holding `exAgent2` on `exNet2`. -/
def exModel2 : Model :=
  { network := exNet2, time := 0, time_tolerance := 1/1000, total_agents := 1,
    total_moving_agents := 0, total_trips_performed := 0,
    total_rerouting := 0, trips_starting_time := [], map_agent_fitness := [],
    agents := [exAgent2] }

/-- Two-node network whose single node `N` has exactly one outgoing link,
already carrying 3 of its 10 vehicles of capacity. -/
def exNet3 : Network :=
  { nodes := [("N", mkNode "N" 0 0 ["l2"]), ("P", mkNode "P" 1 0 [])],
    links := [("l2", mkLink "l2" "N" "P" 1000 100 10 3)] }

/-- An always-fire strategy: `cos α = 1`, `sin α = 0`, `θ = −1`. -/
def exStrategy3 : Strategy :=
  { sin_alpha := 0, cos_alpha := 1, theta := -1, optimized := true }

/-- Agent of `exNet3`, mid-trip at node `N`, whose reroute predicate fires
on the congested link `l2`. -/
def exAgent3 : Individual :=
  { id := 2, trips := [⟨"M", "P", 0⟩], x := 0, y := 0, remaining_time := 0,
    strategy := exStrategy3, path := ["l2"], en_route := true,
    at_node := true, cur_link := "l0", size := 1,
    cur_trip_duration_theo := 50, n_path_performed := 1,
    n_link_in_path := 1 }

/-- Model state holding `exAgent3` on `exNet3` at `t = 60`. -/
def exModel3 : Model :=
  { network := exNet3, time := 60, time_tolerance := 1/1000,
    total_agents := 1, total_moving_agents := 1, total_trips_performed := 0,
    total_rerouting := 0, trips_starting_time := [], map_agent_fitness := [],
    agents := [exAgent3] }

/-- The state `departNode` produces from `exModel2` / `exAgent2`: the
remaining time is the free-flow 100 s (occupancy 0 at assignment time) and
`l1` carries the agent afterwards. -/
def exModel2Departed : Model :=
  { exModel2 with
    network := { nodes := exNet2.nodes,
                 links := [("l1", mkLink "l1" "A" "B" 1000 100 2 1)] }
    total_moving_agents := 1
    trips_starting_time := [0] }

/-- The agent `exAgent2` after its depart-node transition. -/
def exAgent2Departed : Individual :=
  { exAgent2 with
    en_route := true
    at_node := false
    path := []
    n_link_in_path := 1
    cur_link := "l1"
    cur_trip_duration_theo := 100
    remaining_time := 100 }

/-- The state `departNode` produces from `exModel3` / `exAgent3`: the
reroute counter was incremented although node `N` has a single outgoing
link, so the planned path was not replaced. -/
def exModel3Departed : Model :=
  { exModel3 with
    total_rerouting := 1
    network := { nodes := exNet3.nodes,
                 links := [("l2", mkLink "l2" "N" "P" 1000 100 10 4)] } }

/-- The agent `exAgent3` after its depart-node transition. -/
def exAgent3Departed : Individual :=
  { exAgent3 with
    at_node := false
    path := []
    n_link_in_path := 2
    cur_link := "l2"
    cur_trip_duration_theo := 150
    remaining_time := 200243/2000 }

/-- A one-element heap holding ("a", 5). -/
def exHeapA : FibonacciHeap String ℚ := (FibonacciHeap.empty.insert "a" 5).1

/-- A one-element heap holding ("b", 3). -/
def exHeapB : FibonacciHeap String ℚ := (FibonacciHeap.empty.insert "b" 3).1

/-- The state `Model.step` produces from `exModel2`. -/
def exModel2Stepped : Model := (Model.step exModel2).getD exModel2

/-! ## Lemmas about the node arena -/

namespace FibonacciHeapNode

variable {Data Key : Type} [Inhabited Data] [Inhabited Key]

theorem getN_modifyN_self (a : Arena Data Key) (i : ℕ)
    (f : FibonacciHeapNode Data Key → FibonacciHeapNode Data Key)
    (h : i < a.length) : getN (modifyN a i f) i = f (getN a i) := by
  simp [getN, modifyN, List.getD_eq_getElem?_getD, List.getElem?_set_self h]

theorem getN_modifyN_ne (a : Arena Data Key) (i j : ℕ)
    (f : FibonacciHeapNode Data Key → FibonacciHeapNode Data Key)
    (h : i ≠ j) : getN (modifyN a i f) j = getN a j := by
  simp [getN, modifyN, List.getD_eq_getElem?_getD, List.getElem?_set_ne h]

/-- A field projection untouched by the update survives `modifyN` at every
index. -/
theorem proj_getN_modifyN {β : Type} (π : FibonacciHeapNode Data Key → β)
    (a : Arena Data Key) (i j : ℕ)
    (f : FibonacciHeapNode Data Key → FibonacciHeapNode Data Key)
    (hf : ∀ n, π (f n) = π n) :
    π (getN (modifyN a i f) j) = π (getN a j) := by
  by_cases hij : i = j
  · subst hij
    by_cases hlt : i < a.length
    · rw [getN_modifyN_self a i f hlt, hf]
    · have he : modifyN a i f = a :=
        List.set_eq_of_length_le (Nat.le_of_not_lt hlt)
      rw [he]
  · rw [getN_modifyN_ne a i j f hij]

theorem getN_cons_zero (x : FibonacciHeapNode Data Key)
    (t : Arena Data Key) : getN (x :: t) 0 = x := by
  simp [getN]

theorem getN_cons_succ (x : FibonacciHeapNode Data Key)
    (t : Arena Data Key) (i : ℕ) : getN (x :: t) (i + 1) = getN t i := by
  simp [getN]

theorem arenaElems_cons (x : FibonacciHeapNode Data Key)
    (t : Arena Data Key) :
    arenaElems (x :: t) =
      (if x.freed = false then {(x.myData, x.myKey)} else 0) +
        arenaElems t := by
  by_cases hf : x.freed = false <;>
    simp [arenaElems, List.filter_cons, hf]

theorem arenaElems_set (t : Arena Data Key) (i : ℕ)
    (v : FibonacciHeapNode Data Key)
    (hk : v.myKey = (getN t i).myKey) (hd : v.myData = (getN t i).myData)
    (hfr : v.freed = (getN t i).freed) :
    arenaElems (t.set i v) = arenaElems t := by
  induction t generalizing i with
  | nil => simp
  | cons x rest ih =>
    cases i with
    | zero =>
      rw [getN_cons_zero] at hk hd hfr
      rw [List.set_cons_zero, arenaElems_cons, arenaElems_cons, hk, hd, hfr]
    | succ i =>
      rw [getN_cons_succ] at hk hd hfr
      rw [List.set_cons_succ, arenaElems_cons, arenaElems_cons,
        ih i hk hd hfr]

theorem arenaElems_modifyN (a : Arena Data Key) (i : ℕ)
    (f : FibonacciHeapNode Data Key → FibonacciHeapNode Data Key)
    (hk : ∀ n, (f n).myKey = n.myKey) (hd : ∀ n, (f n).myData = n.myData)
    (hfr : ∀ n, (f n).freed = n.freed) :
    arenaElems (modifyN a i f) = arenaElems a :=
  arenaElems_set a i _ (hk _) (hd _) (hfr _)

theorem arenaElems_append (a b : Arena Data Key) :
    arenaElems (a ++ b) = arenaElems a + arenaElems b := by
  simp [arenaElems, List.filter_append]

/-- Splicing circular lists rearranges pointers only: the items of the
arena are untouched. -/
theorem arenaElems_insert (a : Arena Data Key) (t : ℕ) (o : Option ℕ) :
    arenaElems (insert a t o) = arenaElems a := by
  cases o with
  | none => rfl
  | some o1 =>
    simp only [insert]
    rw [arenaElems_modifyN, arenaElems_modifyN, arenaElems_modifyN,
        arenaElems_modifyN]
    all_goals exact fun n => rfl

/-- Splicing preserves every node's key. -/
theorem myKey_getN_insert (a : Arena Data Key) (t : ℕ) (o : Option ℕ)
    (i : ℕ) :
    (getN (insert a t o) i).myKey = (getN a i).myKey := by
  cases o with
  | none => rfl
  | some o1 =>
    simp only [insert]
    rw [proj_getN_modifyN myKey, proj_getN_modifyN myKey,
        proj_getN_modifyN myKey, proj_getN_modifyN myKey]
    all_goals exact fun n => rfl

theorem arenaElems_map_shift (off : ℕ) (a : Arena Data Key) :
    arenaElems (a.map (FibonacciHeap.shiftNode off)) = arenaElems a := by
  induction a with
  | nil => rfl
  | cons x rest ih =>
    rw [List.map_cons, arenaElems_cons, arenaElems_cons, ih]
    rfl

/-- Reading past the left block of an extended arena lands in the shifted
copy of the right block. -/
theorem getN_append_shift (a b : Arena Data Key) (o : ℕ)
    (ho : o < b.length) :
    getN (a ++ b.map (FibonacciHeap.shiftNode a.length)) (a.length + o) =
      FibonacciHeap.shiftNode a.length (getN b o) := by
  simp only [getN, List.getD_eq_getElem?_getD]
  rw [List.getElem?_append_right (by omega)]
  have hsub : a.length + o - a.length = o := by omega
  rw [hsub, List.getElem?_map]
  have hb : b[o]? = some (getN b o) := by
    simp [getN, List.getD_eq_getElem?_getD, List.getElem?_eq_getElem ho]
  rw [hb]
  rfl

theorem getN_append_left (a b : Arena Data Key) (i : ℕ)
    (hi : i < a.length) : getN (a ++ b) i = getN a i := by
  simp only [getN, List.getD_eq_getElem?_getD]
  rw [List.getElem?_append_left hi]

end FibonacciHeapNode

/-! ## Lemmas about the association-list maps -/

theorem mapFind?_mapSet_self {κ α : Type} [DecidableEq κ]
    (m : List (κ × α)) (k : κ) (v : α) :
    mapFind? (mapSet m k v) k = some v := by
  induction m with
  | nil => simp [mapSet, mapFind?]
  | cons h t ih =>
    obtain ⟨k', v'⟩ := h
    by_cases hk : k' = k <;> simp [mapSet, mapFind?, hk, ih]

theorem mapFind?_mapSet_ne {κ α : Type} [DecidableEq κ]
    (m : List (κ × α)) (k k' : κ) (v : α) (h : k ≠ k') :
    mapFind? (mapSet m k v) k' = mapFind? m k' := by
  induction m with
  | nil => simp [mapSet, mapFind?, h]
  | cons hd t ih =>
    obtain ⟨k₀, v₀⟩ := hd
    by_cases hk : k₀ = k
    · subst hk; simp [mapSet, mapFind?, h]
    · simp [mapSet, hk, mapFind?]
      by_cases hk' : k₀ = k' <;> simp [hk', ih]

/-- Restoring the looked-up value undoes a `mapSet`. -/
theorem mapSet_mapSet_restore {κ α : Type} [DecidableEq κ]
    (m : List (κ × α)) (k : κ) (v w : α) (h : mapFind? m k = some w) :
    mapSet (mapSet m k v) k w = m := by
  induction m with
  | nil => simp [mapFind?] at h
  | cons hd t ih =>
    obtain ⟨k₀, v₀⟩ := hd
    by_cases hk : k₀ = k
    · subst hk
      simp [mapFind?] at h
      simp [mapSet, h]
    · simp [mapFind?, hk] at h
      simp [mapSet, hk, ih h]

theorem mapModify_eq_mapSet {κ α : Type} [DecidableEq κ]
    (m : List (κ × α)) (k : κ) (f : α → α) (w : α)
    (h : mapFind? m k = some w) :
    mapModify m k f = mapSet m k (f w) := by
  induction m with
  | nil => simp [mapFind?] at h
  | cons hd t ih =>
    obtain ⟨k₀, v₀⟩ := hd
    by_cases hk : k₀ = k
    · subst hk
      simp [mapFind?] at h
      simp [mapModify, mapSet, h]
    · simp [mapFind?, hk] at h
      simp [mapModify, mapSet, hk, ih h]

theorem mapFind?_mapModify_self {κ α : Type} [DecidableEq κ]
    (m : List (κ × α)) (k : κ) (f : α → α) (w : α)
    (h : mapFind? m k = some w) :
    mapFind? (mapModify m k f) k = some (f w) := by
  rw [mapModify_eq_mapSet m k f w h, mapFind?_mapSet_self]

theorem mapFind?_mapModify_ne {κ α : Type} [DecidableEq κ]
    (m : List (κ × α)) (k k' : κ) (f : α → α) (h : k ≠ k') :
    mapFind? (mapModify m k f) k' = mapFind? m k' := by
  induction m with
  | nil => simp [mapModify]
  | cons hd t ih =>
    obtain ⟨k₀, v₀⟩ := hd
    by_cases hk : k₀ = k
    · subst hk; simp [mapModify, mapFind?, h]
    · simp [mapModify, hk, mapFind?]
      by_cases hk' : k₀ = k' <;> simp [hk', ih]

/-- A successful lookup exhibits a member of the association list. -/
theorem mapFind?_mem {κ α : Type} [DecidableEq κ]
    (m : List (κ × α)) (k : κ) (v : α) (h : mapFind? m k = some v) :
    (k, v) ∈ m := by
  induction m with
  | nil => simp [mapFind?] at h
  | cons hd t ih =>
    obtain ⟨k₀, v₀⟩ := hd
    by_cases hk : k₀ = k
    · subst hk
      simp [mapFind?] at h
      subst h
      exact List.mem_cons_self _ _
    · simp only [mapFind?, if_neg hk] at h
      exact List.mem_cons_of_mem _ (ih h)

/-- On a key-nodup association list, every member is found at its key. -/
theorem mapFind?_of_mem_nodup {κ α : Type} [DecidableEq κ]
    (m : List (κ × α)) (hnd : (m.map Prod.fst).Nodup) (p : κ × α)
    (hp : p ∈ m) : mapFind? m p.1 = some p.2 := by
  induction m with
  | nil => simp at hp
  | cons hd t ih =>
    obtain ⟨k₀, v₀⟩ := hd
    simp only [List.map_cons, List.nodup_cons] at hnd
    rcases List.mem_cons.mp hp with hh | ht
    · subst hh; simp [mapFind?]
    · have hk : k₀ ≠ p.1 := by
        intro he
        exact hnd.1 (he ▸ List.mem_map.mpr ⟨p, ht, rfl⟩)
      simp [mapFind?, hk, ih hnd.2 ht]

/-- `mapModify` leaves the key list untouched. -/
theorem mapModify_map_fst {κ α : Type} [DecidableEq κ]
    (m : List (κ × α)) (k : κ) (f : α → α) :
    (mapModify m k f).map Prod.fst = m.map Prod.fst := by
  induction m with
  | nil => rfl
  | cons hd t ih =>
    obtain ⟨k₀, v₀⟩ := hd
    by_cases hk : k₀ = k <;> simp [mapModify, hk, ih]

/-- A key is found exactly when it occurs in the key list. -/
theorem mapFind?_isSome_iff_mem {κ α : Type} [DecidableEq κ]
    (m : List (κ × α)) (k : κ) :
    (mapFind? m k).isSome = true ↔ k ∈ m.map Prod.fst := by
  induction m with
  | nil => simp [mapFind?]
  | cons hd t ih =>
    obtain ⟨k₀, v₀⟩ := hd
    by_cases hk : k₀ = k
    · subst hk; simp [mapFind?]
    · simp [mapFind?, hk, ih, Ne.symm hk]

/-- `mapModify` does not change which keys are found. -/
theorem mapFind?_isSome_mapModify {κ α : Type} [DecidableEq κ]
    (m : List (κ × α)) (k k' : κ) (f : α → α) :
    (mapFind? (mapModify m k f) k').isSome = (mapFind? m k').isSome := by
  induction m with
  | nil => rfl
  | cons hd t ih =>
    obtain ⟨k₀, v₀⟩ := hd
    by_cases hk : k₀ = k
    · subst hk
      by_cases hk' : k₀ = k'
      · subst hk'; simp [mapModify, mapFind?]
      · simp [mapModify, mapFind?, hk']
    · by_cases hk' : k₀ = k'
      · subst hk'; simp [mapModify, mapFind?, hk]
      · simp [mapModify, mapFind?, hk, hk', ih]

/-! ## Lemmas about the network mutators -/

namespace Network

theorem incrementAgentOnLink_spec (net : Network) (ℓ : String)
    (net' : Network) (h : net.incrementAgentOnLink ℓ = some net') :
    (mapFind? net.links ℓ).isSome = true ∧
    net' = { net with links := mapModify net.links ℓ Link.increaseAgents } := by
  unfold incrementAgentOnLink at h
  cases hf : mapFind? net.links ℓ with
  | none => rw [hf] at h; exact absurd h (by simp)
  | some lnk => rw [hf] at h; exact ⟨rfl, by injection h with h; exact h.symm⟩

theorem decrementAgentOnLink_spec (net : Network) (ℓ : String)
    (net' : Network) (h : net.decrementAgentOnLink ℓ = some net') :
    (mapFind? net.links ℓ).isSome = true ∧
    net' = { net with links := mapModify net.links ℓ Link.decrementAgents } := by
  unfold decrementAgentOnLink at h
  cases hf : mapFind? net.links ℓ with
  | none => rw [hf] at h; exact absurd h (by simp)
  | some lnk => rw [hf] at h; exact ⟨rfl, by injection h with h; exact h.symm⟩

/-- Writing a link's saved cost back undoes a `setLinkCost`. -/
theorem setLinkCost_restore (net : Network) (ℓ : String) (fastest : Bool)
    (v : ℚ) (lnk : Link) (h : mapFind? net.links ℓ = some lnk) :
    setLinkCost (setLinkCost net ℓ fastest v) ℓ fastest
      (if fastest then lnk.free_flow_time else lnk.length) = net := by
  unfold setLinkCost
  cases net with
  | mk nodes links =>
    simp only [mk.injEq, and_true, true_and]
    simp only at h
    rw [mapModify_eq_mapSet links ℓ _ lnk h,
        mapModify_eq_mapSet _ ℓ _ _ (mapFind?_mapSet_self links ℓ _)]
    have hv : (if fastest then
        { (if fastest then { lnk with free_flow_time := v }
           else { lnk with length := v }) with
          free_flow_time := if fastest then lnk.free_flow_time
                            else lnk.length }
      else
        { (if fastest then { lnk with free_flow_time := v }
           else { lnk with length := v }) with
          length := if fastest then lnk.free_flow_time else lnk.length }) =
        lnk := by
      cases fastest <;> simp
    rw [hv]
    exact mapSet_mapSet_restore links ℓ _ lnk h

/-- What a successful `computePath(source, dest, avoid, fastest)` returns:
the untouched network, and the A* answer on the network with the avoided
link's cost inflated to `FLT_MAX * 0.5f`. -/
theorem computePathAvoid_spec (net : Network) (s d ℓ : String)
    (fastest : Bool) (net' : Network) (p : List String)
    (h : net.computePathAvoid s d ℓ fastest = some (net', p)) :
    net' = net ∧
    (net.setLinkCost ℓ fastest floatMaxHalf).computePathAStar s d fastest
      = some p := by
  unfold computePathAvoid at h
  cases hf : mapFind? net.links ℓ with
  | none => simp [hf] at h
  | some lnk =>
    simp only [hf] at h
    cases ha : (net.setLinkCost ℓ fastest floatMaxHalf).computePathAStar
        s d fastest with
    | none => simp [ha] at h
    | some res =>
      simp only [ha, Option.some_inj, Prod.mk.injEq] at h
      obtain ⟨h1, h2⟩ := h
      subst h2
      refine ⟨?_, rfl⟩
      rw [← h1]
      exact setLinkCost_restore net ℓ fastest floatMaxHalf lnk hf

end Network

/-! ## Lemmas about the coordinate shuffle -/

theorem shuffleNodesAux_length (P : ℕ) (l : List (String × Node)) (n : ℕ) :
    (Network.shuffleNodesAux P l n).length = l.length := by
  induction l generalizing n with
  | nil => simp [Network.shuffleNodesAux]
  | cons p rest ih => simp [Network.shuffleNodesAux, ih]

theorem shuffleNodesAux_get? (P : ℕ) (l : List (String × Node)) (n i : ℕ) :
    (Network.shuffleNodesAux P l n).get? i =
      (l.get? i).map (fun p =>
        (p.1, { p.2 with
                x := (((n + i) % P : ℕ) : ℚ) + 1/2,
                y := (1 : ℚ)/2, x_data := p.2.x, y_data := p.2.y })) := by
  induction l generalizing n i with
  | nil => simp [Network.shuffleNodesAux]
  | cons p rest ih =>
    cases i with
    | zero => simp [Network.shuffleNodesAux]
    | succ i =>
      simp only [Network.shuffleNodesAux, List.get?]
      rw [ih (n + 1) i]
      have harith : n + 1 + i = n + (i + 1) := by omega
      rw [harith]

/-! ## C9 — the deterministic coordinate shuffle -/

/-- C9: `shuffleNodesCoordinates` gives the `i`-th node of the iteration
order the partitioning coordinate `((i mod P) + 0.5, 0.5)` and saves the
prior physical coordinates unchanged into `x_data`/`y_data`; the result is
a function of the network and `P` alone (so re-running the shuffle yields
identical partitioning coordinates). -/
theorem C9_shuffle_characterisation (net : Network) (P : ℕ) :
    (net.shuffleNodesCoordinates P).nodes.length = net.nodes.length ∧
    (∀ i : ℕ,
      (net.shuffleNodesCoordinates P).nodes.get? i =
        (net.nodes.get? i).map (fun p =>
          (p.1, { p.2 with
                  x := ((i % P : ℕ) : ℚ) + 1/2, y := (1 : ℚ)/2,
                  x_data := p.2.x, y_data := p.2.y }))) ∧
    net.shuffleNodesCoordinates P = net.shuffleNodesCoordinates P := by
  refine ⟨shuffleNodesAux_length P net.nodes 0, fun i => ?_, rfl⟩
  have := shuffleNodesAux_get? P net.nodes 0 i
  simpa [Network.shuffleNodesCoordinates] using this

/-! ## C6 — the reroute decision -/

/-- C6: at depart-node the reroute decision is true iff the strategy is
optimized, `x₂ > 0` and `x₁·cos α + x₂·sin α − θ > 0`, with
`x₁ = (now − trip.start)/D_theo` when `D_theo > 0` (else 0) and
`x₂ = occupancy/capacity` of the next link; a non-optimized strategy never
reroutes. -/
theorem C6_reroute_decision (ag : Individual) (net : Network) (time : ℚ)
    (lnk : Link) (trip : Trip)
    (hl : mapFind? net.links ag.cur_link = some lnk)
    (ht : ag.trips.head? = some trip) :
    (Model.rerouteDecision ag net time = some true ↔
      (ag.strategy.optimized = true ∧
       0 < (lnk.n_agents : ℚ) / lnk.capacity ∧
       0 < (if 0 < ag.cur_trip_duration_theo then
              (time - trip.starting_time) / ag.cur_trip_duration_theo
            else 0) * ag.strategy.cos_alpha +
           (lnk.n_agents : ℚ) / lnk.capacity * ag.strategy.sin_alpha -
           ag.strategy.theta)) ∧
    (ag.strategy.optimized = false →
      Model.rerouteDecision ag net time = some false) := by
  have hdec : Model.rerouteDecision ag net time =
      some (ag.strategy.optimized &&
        (decide (0 < (lnk.n_agents : ℚ) / lnk.capacity) &&
         decide (0 < (if 0 < ag.cur_trip_duration_theo then
              (time - trip.starting_time) / ag.cur_trip_duration_theo
            else 0) * ag.strategy.cos_alpha +
           (lnk.n_agents : ℚ) / lnk.capacity * ag.strategy.sin_alpha -
           ag.strategy.theta))) := by
    unfold Model.rerouteDecision Individual.isRerouting
      Strategy.computeStrategy
    cases hopt : ag.strategy.optimized with
    | false => simp
    | true =>
      simp only [if_true]
      by_cases hd : 0 < ag.cur_trip_duration_theo
      · simp only [gt_iff_lt, hd, if_true, ht, hl]
        by_cases hx2 : 0 < (lnk.n_agents : ℚ) / lnk.capacity
        · simp only [hx2, if_true, decide_eq_true_eq, Bool.true_and]
          by_cases hs : 0 < (time - trip.starting_time) /
              ag.cur_trip_duration_theo * ag.strategy.cos_alpha +
              (lnk.n_agents : ℚ) / lnk.capacity * ag.strategy.sin_alpha -
              ag.strategy.theta
          · simp [hs]
          · simp [hs]
        · rw [if_neg hx2, decide_eq_false hx2]
          simp
      · simp only [gt_iff_lt, hd, if_false, hl]
        by_cases hx2 : 0 < (lnk.n_agents : ℚ) / lnk.capacity
        · by_cases hs : 0 < (0:ℚ) * ag.strategy.cos_alpha +
              (lnk.n_agents : ℚ) / lnk.capacity * ag.strategy.sin_alpha -
              ag.strategy.theta
          · rw [if_pos hx2, if_pos (by linarith), decide_eq_true hx2,
              decide_eq_true hs]
            simp
          · rw [if_pos hx2, if_neg (by intro hc; exact hs (by linarith)),
              decide_eq_true hx2, decide_eq_false hs]
            simp
        · rw [if_neg hx2, decide_eq_false hx2]
          simp
  constructor
  · rw [hdec]
    simp [Bool.and_eq_true, decide_eq_true_eq, and_assoc]
  · intro hopt
    rw [hdec, hopt]
    simp

/-- Witness for C6: once `exAgent3` has popped `l2` as its current link,
its strategy fires on the congested link `l2` of `exNet3`
(`x₂ = 3/10 > 0`, `x₁ = 6/5`, `x₁·1 + x₂·0 + 1 > 0`). -/
theorem C6_reroute_decision_witness :
    Model.rerouteDecision { exAgent3 with cur_link := "l2" } exNet3 60 =
      some true := by
  have h := C6_reroute_decision { exAgent3 with cur_link := "l2" } exNet3 60
    (mkLink "l2" "N" "P" 1000 100 10 3) ⟨"M", "P", 0⟩
    (by with_unfolding_all rfl) (by with_unfolding_all rfl)
  exact h.1.mpr (by norm_num [exAgent3, exStrategy3, mkLink])

/-! ## Lemmas about the depart-node transition -/

theorem getNextLinkAndRemove_spec (ag : Individual) (ℓ : String)
    (ag' : Individual) (h : ag.getNextLinkAndRemove = some (ℓ, ag')) :
    ag.path.getLast? = some ℓ ∧
    ag' = { ag with path := ag.path.dropLast,
                    n_link_in_path := ag.n_link_in_path + 1 } := by
  unfold Individual.getNextLinkAndRemove at h
  cases hlast : ag.path.getLast? with
  | none => rw [hlast] at h; simp at h
  | some l0 =>
    rw [hlast] at h
    simp only [Option.some_inj, Prod.mk.injEq] at h
    obtain ⟨h1, h2⟩ := h
    subst h1
    exact ⟨rfl, h2.symm⟩

/-- Everything a successful `departNodeCore` guarantees: the popped link,
the reroute decision, the entered link (their coincidence when the decision
is negative), the travel-time assignment from the pre-increment occupancy,
the occupancy increment, and the bookkeeping fields. -/
theorem departNodeCore_spec (m1 : Model) (ag1 : Individual) (m' : Model)
    (ag' : Individual) (h : Model.departNodeCore m1 ag1 = some (m', ag')) :
    ∃ (ℓ0 ℓ : String) (b : Bool) (lnk : Link),
      ag1.path.getLast? = some ℓ0 ∧
      Model.rerouteDecision
        { ag1 with path := ag1.path.dropLast,
                   n_link_in_path := ag1.n_link_in_path + 1,
                   cur_link := ℓ0 } m1.network m1.time = some b ∧
      mapFind? m1.network.links ℓ = some lnk ∧
      m'.network = { m1.network with
        links := mapModify m1.network.links ℓ Link.increaseAgents } ∧
      m'.total_rerouting = m1.total_rerouting + (if b = true then 1 else 0) ∧
      m'.total_moving_agents = m1.total_moving_agents ∧
      m'.total_trips_performed = m1.total_trips_performed ∧
      m'.agents = m1.agents ∧ m'.time = m1.time ∧
      m'.time_tolerance = m1.time_tolerance ∧
      ag'.cur_link = ℓ ∧ ag'.at_node = ag1.at_node ∧
      ag'.en_route = ag1.en_route ∧ ag'.trips = ag1.trips ∧
      ag'.remaining_time = lnk.timeOnLink ∧
      (b = false → ℓ = ℓ0) := by
  unfold Model.departNodeCore at h
  cases hpop : ag1.getNextLinkAndRemove with
  | none => simp [hpop] at h
  | some pr =>
    obtain ⟨ℓ0, ag2p⟩ := pr
    obtain ⟨hlast, hag2p⟩ := getNextLinkAndRemove_spec ag1 ℓ0 ag2p hpop
    simp only [hpop] at h
    cases hdec : Model.rerouteDecision { ag2p with cur_link := ℓ0 }
        m1.network m1.time with
    | none => simp [hdec] at h
    | some b =>
      simp only [hdec] at h
      have hdec2 : Model.rerouteDecision
          { ag1 with path := ag1.path.dropLast,
                     n_link_in_path := ag1.n_link_in_path + 1,
                     cur_link := ℓ0 } m1.network m1.time = some b := by
        rw [hag2p] at hdec
        exact hdec
      have tail : ∀ (m4 : Model) (ag5 : Individual) (ℓ : String),
          (match mapFind? m4.network.links ℓ with
           | none => none
           | some lnkN =>
             match m4.network.incrementAgentOnLink ℓ with
             | none => none
             | some net3 =>
               some ({ m4 with network := net3 },
                 { ag5.increaseTripDurationTheo lnkN.free_flow_time with
                   remaining_time := lnkN.timeOnLink })) = some (m', ag') →
          m4.network = m1.network →
          m4.total_rerouting =
            m1.total_rerouting + (if b = true then 1 else 0) →
          m4.total_moving_agents = m1.total_moving_agents →
          m4.total_trips_performed = m1.total_trips_performed →
          m4.agents = m1.agents → m4.time = m1.time →
          m4.time_tolerance = m1.time_tolerance →
          ag5.cur_link = ℓ → ag5.at_node = ag1.at_node →
          ag5.en_route = ag1.en_route → ag5.trips = ag1.trips →
          (b = false → ℓ = ℓ0) →
          ∃ (ℓ0 ℓ : String) (b : Bool) (lnk : Link),
            ag1.path.getLast? = some ℓ0 ∧
            Model.rerouteDecision
              { ag1 with path := ag1.path.dropLast,
                         n_link_in_path := ag1.n_link_in_path + 1,
                         cur_link := ℓ0 } m1.network m1.time = some b ∧
            mapFind? m1.network.links ℓ = some lnk ∧
            m'.network = { m1.network with
              links := mapModify m1.network.links ℓ Link.increaseAgents } ∧
            m'.total_rerouting =
              m1.total_rerouting + (if b = true then 1 else 0) ∧
            m'.total_moving_agents = m1.total_moving_agents ∧
            m'.total_trips_performed = m1.total_trips_performed ∧
            m'.agents = m1.agents ∧ m'.time = m1.time ∧
            m'.time_tolerance = m1.time_tolerance ∧
            ag'.cur_link = ℓ ∧ ag'.at_node = ag1.at_node ∧
            ag'.en_route = ag1.en_route ∧ ag'.trips = ag1.trips ∧
            ag'.remaining_time = lnk.timeOnLink ∧
            (b = false → ℓ = ℓ0) := by
        intro m4 ag5 ℓ htail hnet hrr hmov htrp hags htime htol hcl hat
          hen htr hb0
        cases hfind : mapFind? m4.network.links ℓ with
        | none => simp [hfind] at htail
        | some lnkN =>
          simp only [hfind] at htail
          cases hinc : m4.network.incrementAgentOnLink ℓ with
          | none => simp [hinc] at htail
          | some net3 =>
            simp only [hinc, Option.some_inj, Prod.mk.injEq] at htail
            obtain ⟨hm', hag'⟩ := htail
            obtain ⟨-, hnet3⟩ :=
              Network.incrementAgentOnLink_spec m4.network ℓ net3 hinc
            refine ⟨ℓ0, ℓ, b, lnkN, hlast, hdec2, by rw [← hnet]; exact hfind,
              ?_, ?_, ?_, ?_, ?_, ?_, ?_, ?_, ?_, ?_, ?_, ?_, hb0⟩
            · rw [← hm', hnet3, hnet]
            · rw [← hm']; exact hrr
            · rw [← hm']; exact hmov
            · rw [← hm']; exact htrp
            · rw [← hm']; exact hags
            · rw [← hm']; exact htime
            · rw [← hm']; exact htol
            · rw [← hag']
              simpa [Individual.increaseTripDurationTheo] using hcl
            · rw [← hag']
              simpa [Individual.increaseTripDurationTheo] using hat
            · rw [← hag']
              simpa [Individual.increaseTripDurationTheo] using hen
            · rw [← hag']
              simpa [Individual.increaseTripDurationTheo] using htr
            · rw [← hag']
      cases b with
      | false =>
        simp only [Bool.false_eq_true, if_false] at h
        refine tail m1 { ag2p with cur_link := ℓ0 } ℓ0 h rfl ?_ rfl rfl rfl
          rfl rfl rfl ?_ ?_ ?_ (fun _ => rfl)
        · simp
        · rw [hag2p]
        · rw [hag2p]
        · rw [hag2p]
      | true =>
        simp only [if_true] at h
        cases hf1 : mapFind? m1.network.links ℓ0 with
        | none => simp [hf1] at h
        | some lnkC =>
          simp only [hf1] at h
          cases hf2 : mapFind? m1.network.nodes lnkC.start_node_id with
          | none => simp [hf2] at h
          | some node =>
            simp only [hf2] at h
            by_cases hdeg : node.links_out_id.length > 1
            · simp only [hdeg, if_true] at h
              cases hf3 : ({ ag2p with cur_link := ℓ0 } :
                  Individual).trips.head? with
              | none => simp [hf3] at h
              | some trip =>
                simp only [hf3] at h
                cases hf4 : Network.computePathAvoid m1.network
                    lnkC.start_node_id trip.id_destination ℓ0 true with
                | none => simp [hf4] at h
                | some pr2 =>
                  obtain ⟨net2, new_path⟩ := pr2
                  simp only [hf4] at h
                  obtain ⟨hnet2, -⟩ := Network.computePathAvoid_spec
                    m1.network lnkC.start_node_id trip.id_destination ℓ0
                    true net2 new_path hf4
                  cases hf5 : ({ ({ ag2p with cur_link := ℓ0 } : Individual)
                      with path := new_path } :
                      Individual).getNextLinkAndRemove with
                  | none => simp [hf5] at h
                  | some pr3 =>
                    obtain ⟨id2, ag4⟩ := pr3
                    simp only [hf5] at h
                    obtain ⟨-, hag4⟩ :=
                      getNextLinkAndRemove_spec _ id2 ag4 hf5
                    refine tail
                      { m1 with total_rerouting := m1.total_rerouting + 1,
                                network := net2 }
                      { ag4 with cur_link := id2 } id2 h ?_ ?_
                      rfl rfl rfl rfl rfl rfl ?_ ?_ ?_ (by simp)
                    · simpa using hnet2
                    · simp
                    · rw [hag4, hag2p]
                    · rw [hag4, hag2p]
                    · rw [hag4, hag2p]
            · simp only [hdeg, if_false] at h
              refine tail
                { m1 with total_rerouting := m1.total_rerouting + 1 }
                { ag2p with cur_link := ℓ0 } ℓ0 h rfl ?_ rfl rfl
                rfl rfl rfl rfl ?_ ?_ ?_ (by simp)
              · simp
              · rw [hag2p]
              · rw [hag2p]
              · rw [hag2p]

/-- The full depart-node branch: start-of-trip bookkeeping followed by
`departNodeCore`; the agent leaves with `at_node = false`,
`en_route = true`. -/
theorem departNode_spec (m : Model) (ag : Individual) (m' : Model)
    (ag' : Individual) (h : Model.departNode m ag = some (m', ag')) :
    ∃ (ℓ0 ℓ : String) (b : Bool) (lnk : Link),
      ag.path.getLast? = some ℓ0 ∧
      Model.rerouteDecision
        { ag with en_route := true, at_node := false,
                  path := ag.path.dropLast,
                  n_link_in_path := ag.n_link_in_path + 1,
                  cur_link := ℓ0 } m.network m.time = some b ∧
      mapFind? m.network.links ℓ = some lnk ∧
      m'.network = { m.network with
        links := mapModify m.network.links ℓ Link.increaseAgents } ∧
      m'.total_rerouting = m.total_rerouting + (if b = true then 1 else 0) ∧
      m'.total_moving_agents = m.total_moving_agents +
        (if ag.en_route = false then 1 else 0) ∧
      m'.total_trips_performed = m.total_trips_performed ∧
      m'.agents = m.agents ∧ m'.time = m.time ∧
      m'.time_tolerance = m.time_tolerance ∧
      ag'.cur_link = ℓ ∧ ag'.at_node = false ∧ ag'.en_route = true ∧
      ag'.trips = ag.trips ∧
      ag'.remaining_time = lnk.timeOnLink ∧
      (b = false → ℓ = ℓ0) := by
  unfold Model.departNode at h
  split at h
  · rename_i hc
    obtain ⟨ℓ0, ℓ, b, lnk, h1, h2, h3, h4, h5, h6, h7, h8, h9, h10, h11,
      h12, h13, h14, h15, h16⟩ := departNodeCore_spec _ _ m' ag' h
    refine ⟨ℓ0, ℓ, b, lnk, by simpa using h1, by simpa using h2,
      by simpa using h3, by simpa using h4, by simpa using h5,
      by rw [h6]; simp [hc], by simpa using h7, by simpa using h8,
      by simpa using h9, by simpa using h10, h11, by simpa using h12,
      by simpa using h13, by simpa using h14, h15, h16⟩
  · rename_i hc
    have hen : ag.en_route = true := by
      cases hr : ag.en_route with
      | false => exact absurd hr hc
      | true => rfl
    obtain ⟨ℓ0, ℓ, b, lnk, h1, h2, h3, h4, h5, h6, h7, h8, h9, h10, h11,
      h12, h13, h14, h15, h16⟩ := departNodeCore_spec _ _ m' ag' h
    refine ⟨ℓ0, ℓ, b, lnk, by simpa using h1, ?_,
      by simpa using h3, by simpa using h4, by simpa using h5,
      by rw [h6]; simp [hen], by simpa using h7, by simpa using h8,
      by simpa using h9, by simpa using h10, h11, by simpa using h12,
      by rw [h13]; simpa using hen, by simpa using h14, h15, h16⟩
    · have := h2
      simp only at this
      simpa [hen] using this

/-! ## C3 — travel time and the occupancy increment -/

/-- C3 fails on the code: in the depart-node transition of `exModel2` the
assigned remaining time is 100 — `timeOnLink` at the occupancy that
excludes the departing agent — while the occupancy after the transition is
1, and `timeOnLink` of the link carrying that agent (the value the claim
asserts is assigned) is 100·(1 + 0.15·(1/2)⁴) = 1615/16 ≠ 100. -/
theorem C3_counterexample :
    (Model.departNode exModel2 exAgent2).map
      (fun r => (r.2.remaining_time,
                 (mapFindD r.1.network.links "l1" defaultLink).n_agents)) =
      some (100, 1) ∧
    (mkLink "l1" "A" "B" 1000 100 2 1).timeOnLink = 1615/16 ∧
    ¬ ((1615 : ℚ)/16 = 100) := by
  refine ⟨by with_unfolding_all rfl, by with_unfolding_all rfl, by norm_num⟩

/-- C3, amended: in every depart-node transition the assigned
`remaining_time` equals `timeOnLink` of the entered link read from the
pre-transition network — an occupancy count that excludes the departing
agent — and the occupancy increment is applied afterwards, producing the
post-transition network. -/
theorem C3_amended (m : Model) (ag : Individual) (m' : Model)
    (ag' : Individual) (h : Model.departNode m ag = some (m', ag')) :
    ∃ lnk : Link,
      mapFind? m.network.links ag'.cur_link = some lnk ∧
      ag'.remaining_time = lnk.timeOnLink ∧
      m'.network = { m.network with
        links := mapModify m.network.links ag'.cur_link
          Link.increaseAgents } := by
  obtain ⟨ℓ0, ℓ, b, lnk, -, -, h3, h4, -, -, -, -, -, -, h11, -, -, -,
    h15, -⟩ := departNode_spec m ag m' ag' h
  exact ⟨lnk, by rw [h11]; exact h3, h15, by rw [h11]; exact h4⟩

/-- Witness for C3 (amended), on the `exModel2` departure. -/
theorem C3_amended_witness :
    ∃ lnk : Link,
      mapFind? exModel2.network.links exAgent2Departed.cur_link = some lnk ∧
      exAgent2Departed.remaining_time = lnk.timeOnLink ∧
      exModel2Departed.network = { exModel2.network with
        links := mapModify exModel2.network.links exAgent2Departed.cur_link
          Link.increaseAgents } :=
  C3_amended exModel2 exAgent2 exModel2Departed exAgent2Departed
    (by with_unfolding_all rfl)

/-! ## C4 — the rerouting counter -/

/-- C4 fails on the code: departing `exAgent3` from node `N` — whose
out-degree is 1, so by the claim no reroute can occur and the counter must
stay put — still increments the rerouting counter from 0 to 1, while the
planned path is not replaced (the agent enters the originally planned link
`l2`). -/
theorem C4_counterexample :
    Model.departNode exModel3 exAgent3 =
      some (exModel3Departed, exAgent3Departed) ∧
    exModel3.total_rerouting = 0 ∧
    exModel3Departed.total_rerouting = 1 ∧
    exAgent3Departed.cur_link = "l2" ∧ exAgent3Departed.path = [] ∧
    (mapFindD exNet3.nodes "N" (mkNode "N" 0 0 [])).links_out_id.length
      = 1 := by
  refine ⟨by with_unfolding_all rfl, by with_unfolding_all rfl,
    by with_unfolding_all rfl, by with_unfolding_all rfl,
    by with_unfolding_all rfl, by with_unfolding_all rfl⟩

/-- C4, amended: the depart-node transition increments the global
rerouting counter exactly when the reroute predicate
(`optimized ∧ isRerouting`) fires, regardless of whether the planned path
is actually replaced — the replacement additionally requires the current
node to have more than one outgoing link, so the counter can exceed the
number of path replacements. -/
theorem C4_amended (m : Model) (ag : Individual) (m' : Model)
    (ag' : Individual) (h : Model.departNode m ag = some (m', ag')) :
    ∃ (ℓ0 : String) (b : Bool),
      ag.path.getLast? = some ℓ0 ∧
      Model.rerouteDecision
        { ag with en_route := true, at_node := false,
                  path := ag.path.dropLast,
                  n_link_in_path := ag.n_link_in_path + 1,
                  cur_link := ℓ0 } m.network m.time = some b ∧
      m'.total_rerouting = m.total_rerouting +
        (if b = true then 1 else 0) := by
  obtain ⟨ℓ0, ℓ, b, lnk, h1, h2, -, -, h5, -⟩ :=
    departNode_spec m ag m' ag' h
  exact ⟨ℓ0, b, h1, h2, h5⟩

/-- Witness for C4 (amended), on the `exModel3` departure: the predicate
fires and the counter is incremented by one. -/
theorem C4_amended_witness :
    ∃ (ℓ0 : String) (b : Bool),
      exAgent3.path.getLast? = some ℓ0 ∧
      Model.rerouteDecision
        { exAgent3 with en_route := true, at_node := false,
                        path := exAgent3.path.dropLast,
                        n_link_in_path := exAgent3.n_link_in_path + 1,
                        cur_link := ℓ0 } exModel3.network exModel3.time =
        some b ∧
      exModel3Departed.total_rerouting = exModel3.total_rerouting +
        (if b = true then 1 else 0) :=
  C4_amended exModel3 exAgent3 exModel3Departed exAgent3Departed
    (by with_unfolding_all rfl)

/-! ## C2 — source equal to destination -/

/-- C2 fails on the plain variant: `computePath(s, s, fastest)` skips the
search loop and immediately evaluates `prec.at(s)` on the empty predecessor
map, which throws `std::out_of_range` — it does not return the empty
sequence. -/
theorem C2_counterexample :
    Network.computePath exNet2 "A" "A" true = none ∧
    Network.computePathAStar exNet2 "A" "A" true = some [] := by
  constructor <;> with_unfolding_all rfl

/-- The A* search loop exits immediately when the current node is the
destination, returning the predecessor map it was started with. -/
theorem computePathLoop_source_eq_dest (net : Network) (fastest : Bool)
    (d : String) (fuel : ℕ) (h : FibonacciHeap String ℚ)
    (qn : List (String × ℕ)) (mk : List String)
    (prec : List (String × String)) :
    Network.computePathLoop net fastest d (fuel + 1) h qn mk prec d =
      some prec := by
  simp [Network.computePathLoop]

/-- C2, amended: when source equals destination, `computePathAStar` and the
edge-avoiding `computePath` return the empty sequence, but the plain
`computePath` fails (`prec.at` throws on the empty predecessor map). -/
theorem C2_amended (net : Network) (s ℓ : String) (fastest : Bool)
    (lnk : Link) (hl : mapFind? net.links ℓ = some lnk) :
    Network.computePathAStar net s s fastest = some [] ∧
    Network.computePathAvoid net s s ℓ fastest = some (net, []) ∧
    Network.computePath net s s fastest = none := by
  have hA : ∀ net2 : Network,
      Network.computePathAStar net2 s s fastest = some [] := by
    intro net2
    simp [Network.computePathAStar]
  refine ⟨hA net, ?_, ?_⟩
  · unfold Network.computePathAvoid
    rw [hl]
    simp only [hA]
    rw [Network.setLinkCost_restore net ℓ fastest floatMaxHalf lnk hl]
  · unfold Network.computePath
    have hfuel : net.nodes.length + 3 = (net.nodes.length + 2) + 1 := rfl
    have hfuel2 : net.links.length + 2 = (net.links.length + 1) + 1 := rfl
    simp only [hfuel, hfuel2, computePathLoop_source_eq_dest]
    simp [Network.reconstructPath, mapFind?]

/-- Witness for C2 (amended): on `exNet2` with `s = d = "A"` and the
avoided link `l1`. -/
theorem C2_amended_witness :
    Network.computePathAStar exNet2 "A" "A" true = some [] ∧
    Network.computePathAvoid exNet2 "A" "A" "l1" true = some (exNet2, []) ∧
    Network.computePath exNet2 "A" "A" true = none :=
  C2_amended exNet2 "A" "l1" true (mkLink "l1" "A" "B" 1000 100 2 0)
    (by with_unfolding_all rfl)

/-! ## C7 — the edge-avoiding planner -/

/-- C7: a normally returning `computePath(source, dest, ℓ, fastest)` leaves
the whole network — in particular ℓ's cost and every other link — as it was
before the call, and returns exactly the A* answer on the network whose
link ℓ has its cost set to `FLT_MAX * 0.5f`. -/
theorem C7_avoid_frame (net : Network) (s d ℓ : String) (fastest : Bool)
    (net' : Network) (p : List String)
    (h : net.computePathAvoid s d ℓ fastest = some (net', p)) :
    net' = net ∧
    (net.setLinkCost ℓ fastest floatMaxHalf).computePathAStar s d fastest
      = some p :=
  Network.computePathAvoid_spec net s d ℓ fastest net' p h

/-- Witness for C7, on `exNet1` avoiding link `sa`: the call succeeds, the
network is restored, and the result is the A* path on the inflated
network. -/
theorem C7_avoid_frame_witness :
    exNet1 = exNet1 ∧
    (exNet1.setLinkCost "sa" false floatMaxHalf).computePathAStar
      "S" "D" false = some ["bd", "sb"] :=
  C7_avoid_frame exNet1 "S" "D" "sa" false exNet1 ["bd", "sb"]
    (by with_unfolding_all rfl)

/-! ## C1 — A* versus the plain shortest path -/

/-- C1 (code bug): on `exNet1`, with the length cost (`fastest = false`)
and `D` reachable from `S`, the plain search returns the path
`S→A→D` of total cost 2, but `computePathAStar` returns `S→B→D` of total
cost 9/2: the L1 heuristic on the physical coordinates overestimates the
remaining cost at `A` (10 > 2), so the closed-set A* commits to the wrong
branch and the two total costs differ. -/
theorem C1_astar_cost_divergence :
    Network.computePath exNet1 "S" "D" false = some ["ad", "sa"] ∧
    Network.computePathAStar exNet1 "S" "D" false = some ["bd", "sb"] ∧
    Network.pathCost exNet1 false ["ad", "sa"] = 2 ∧
    Network.pathCost exNet1 false ["bd", "sb"] = 9/2 ∧
    ¬ Network.pathCost exNet1 false ["ad", "sa"] =
        Network.pathCost exNet1 false ["bd", "sb"] := by
  refine ⟨?_, ?_, ?_, ?_, ?_⟩
  · with_unfolding_all rfl
  · with_unfolding_all rfl
  · with_unfolding_all rfl
  · with_unfolding_all rfl
  · intro hc
    have h2 : Network.pathCost exNet1 false ["ad", "sa"] = 2 := by
      with_unfolding_all rfl
    have h92 : Network.pathCost exNet1 false ["bd", "sb"] = 9/2 := by
      with_unfolding_all rfl
    rw [h2, h92] at hc
    norm_num at hc

/-! ## C10 — merge -/

/-- C10: `merge` dereferences the receiver's root before any emptiness
test, so merging into an empty heap is undefined (`none` in the model);
into a non-empty receiver (whose root, and the other heap's root if any,
are valid arena indices) it succeeds, the merged heap holds every element
of both heaps, its count is the sum of the two counts, and `minimum()`
lands on the smaller of the two minima (resp. stays put when the other
heap is empty). -/
theorem C10_merge {Data Key : Type} [Inhabited Data] [Inhabited Key]
    [LinearOrder Key] :
    (∀ h other : FibonacciHeap Data Key,
      h.rootWithMinKey = none → h.merge other = none) ∧
    (∀ (h other : FibonacciHeap Data Key) (r : ℕ),
      h.rootWithMinKey = some r → r < h.arena.length →
      (∀ o, other.rootWithMinKey = some o → o < other.arena.length) →
      ∃ hm : FibonacciHeap Data Key, h.merge other = some hm ∧
        hm.count = h.count + other.count ∧
        hm.elems = h.elems + other.elems ∧
        (∀ o, other.rootWithMinKey = some o →
          ∃ rm : ℕ, hm.rootWithMinKey = some rm ∧
            (FibonacciHeapNode.getN hm.arena rm).myKey =
              min ((FibonacciHeapNode.getN h.arena r).myKey)
                  ((FibonacciHeapNode.getN other.arena o).myKey)) ∧
        (other.rootWithMinKey = none →
          hm.rootWithMinKey = some r ∧
          (FibonacciHeapNode.getN hm.arena r).myKey =
            (FibonacciHeapNode.getN h.arena r).myKey)) := by
  constructor
  · intro h other hnone
    unfold FibonacciHeap.merge
    rw [hnone]
  · intro h other r hr hrlen holen
    cases hother : other.rootWithMinKey with
    | none =>
      unfold FibonacciHeap.merge
      rw [hr, hother]
      simp only [Option.map_none']
      refine ⟨_, rfl, rfl, ?_, ?_, ?_⟩
      · show arenaElems (FibonacciHeapNode.insert
          (h.arena ++
            other.arena.map (FibonacciHeap.shiftNode h.arena.length))
          r none) = arenaElems h.arena + arenaElems other.arena
        rw [FibonacciHeapNode.arenaElems_insert,
          FibonacciHeapNode.arenaElems_append,
          FibonacciHeapNode.arenaElems_map_shift]
      · intro o ho
        simp at ho
      · intro _
        refine ⟨rfl, ?_⟩
        show (FibonacciHeapNode.getN (FibonacciHeapNode.insert
          (h.arena ++
            other.arena.map (FibonacciHeap.shiftNode h.arena.length))
          r none) r).myKey = (FibonacciHeapNode.getN h.arena r).myKey
        rw [FibonacciHeapNode.myKey_getN_insert,
          FibonacciHeapNode.getN_append_left _ _ _ hrlen]
    | some o0 =>
      have ho0len := holen o0 hother
      unfold FibonacciHeap.merge
      rw [hr, hother]
      simp only [Option.map_some']
      have hko : (FibonacciHeapNode.getN (FibonacciHeapNode.insert
          (h.arena ++
            other.arena.map (FibonacciHeap.shiftNode h.arena.length))
          r (some (o0 + h.arena.length)))
          (o0 + h.arena.length)).myKey =
          (FibonacciHeapNode.getN other.arena o0).myKey := by
        rw [FibonacciHeapNode.myKey_getN_insert,
          Nat.add_comm o0 h.arena.length,
          FibonacciHeapNode.getN_append_shift _ _ _ ho0len]
        rfl
      have hkr : (FibonacciHeapNode.getN (FibonacciHeapNode.insert
          (h.arena ++
            other.arena.map (FibonacciHeap.shiftNode h.arena.length))
          r (some (o0 + h.arena.length))) r).myKey =
          (FibonacciHeapNode.getN h.arena r).myKey := by
        rw [FibonacciHeapNode.myKey_getN_insert,
          FibonacciHeapNode.getN_append_left _ _ _ hrlen]
      have helems : arenaElems (FibonacciHeapNode.insert
          (h.arena ++
            other.arena.map (FibonacciHeap.shiftNode h.arena.length))
          r (some (o0 + h.arena.length))) =
          arenaElems h.arena + arenaElems other.arena := by
        rw [FibonacciHeapNode.arenaElems_insert,
          FibonacciHeapNode.arenaElems_append,
          FibonacciHeapNode.arenaElems_map_shift]
      by_cases hlt : (FibonacciHeapNode.getN (FibonacciHeapNode.insert
          (h.arena ++
            other.arena.map (FibonacciHeap.shiftNode h.arena.length))
          r (some (o0 + h.arena.length)))
          (o0 + h.arena.length)).myKey <
          (FibonacciHeapNode.getN (FibonacciHeapNode.insert
            (h.arena ++
              other.arena.map (FibonacciHeap.shiftNode h.arena.length))
            r (some (o0 + h.arena.length))) r).myKey
      · rw [if_pos hlt]
        refine ⟨_, rfl, rfl, helems, ?_, ?_⟩
        · intro o ho
          injection ho with ho
          subst ho
          refine ⟨o0 + h.arena.length, rfl, ?_⟩
          rw [hko, hkr] at hlt
          rw [hko]
          exact (min_eq_right hlt.le).symm
        · intro hcontr
          exact absurd hcontr (by simp)
      · rw [if_neg hlt]
        refine ⟨_, rfl, rfl, helems, ?_, ?_⟩
        · intro o ho
          injection ho with ho
          subst ho
          refine ⟨r, rfl, ?_⟩
          rw [hko, hkr] at hlt
          rw [hkr]
          exact (min_eq_left (le_of_not_lt hlt)).symm
        · intro hcontr
          exact absurd hcontr (by simp)

/-- Witness for C10: merging the empty heap into the one-element heap
`exHeapA` (receiver non-empty, other `exHeapB` holding key 3 against key
5); and the undefined direction on an empty receiver. -/
theorem C10_merge_witness :
    (FibonacciHeap.empty.merge exHeapB = (none : Option (FibonacciHeap String ℚ))) ∧
    (∃ hm : FibonacciHeap String ℚ, exHeapA.merge exHeapB = some hm ∧
      hm.count = exHeapA.count + exHeapB.count ∧
      hm.elems = exHeapA.elems + exHeapB.elems ∧
      (∀ o, exHeapB.rootWithMinKey = some o →
        ∃ rm : ℕ, hm.rootWithMinKey = some rm ∧
          (FibonacciHeapNode.getN hm.arena rm).myKey =
            min ((FibonacciHeapNode.getN exHeapA.arena 0).myKey)
                ((FibonacciHeapNode.getN exHeapB.arena o).myKey)) ∧
      (exHeapB.rootWithMinKey = none →
        hm.rootWithMinKey = some 0 ∧
        (FibonacciHeapNode.getN hm.arena 0).myKey =
          (FibonacciHeapNode.getN exHeapA.arena 0).myKey)) := by
  constructor
  · exact (C10_merge.1) FibonacciHeap.empty exHeapB rfl
  · refine (C10_merge.2) exHeapA exHeapB 0 (by with_unfolding_all rfl)
      (by with_unfolding_all decide) ?_
    intro o ho
    have h0 : exHeapB.rootWithMinKey = some 0 := by with_unfolding_all rfl
    rw [h0] at ho
    injection ho with ho
    subst ho
    with_unfolding_all decide

/-! ## Conservation of occupancy (spec invariant 4 / P1) -/

theorem occCount_nil (ℓ : String) : occCount [] ℓ = 0 := rfl

theorem occCount_append (xs ys : List Individual) (ℓ : String) :
    occCount (xs ++ ys) ℓ = occCount xs ℓ + occCount ys ℓ := by
  simp [occCount, List.filter_append]

theorem occCount_cons (a : Individual) (rest : List Individual)
    (ℓ : String) :
    occCount (a :: rest) ℓ =
      (if countedOn a ℓ = true then 1 else 0) + occCount rest ℓ := by
  by_cases h : countedOn a ℓ = true <;>
    simp [occCount, List.filter_cons, h, Nat.add_comm]

theorem occCount_le_length (agents : List Individual) (ℓ : String) :
    occCount agents ℓ ≤ agents.length :=
  List.length_filter_le _ _

theorem countedOn_eq_true_iff (a : Individual) (ℓ : String) :
    countedOn a ℓ = true ↔
      a.en_route = true ∧ a.at_node = false ∧ a.cur_link = ℓ := by
  simp [countedOn, Bool.and_eq_true, and_assoc]

theorem countedOn_of_at_node (a : Individual) (ℓ : String)
    (h : a.at_node = true) : countedOn a ℓ = false := by
  simp [countedOn, h]

theorem countedOn_decrease (ag : Individual) (t : ℚ) (ℓ : String) :
    countedOn (ag.decreaseRemainingTime t) ℓ = countedOn ag ℓ := rfl

theorem sum_map_add {α : Type} (l : List α) (f g : α → ℕ) :
    (l.map (fun x => f x + g x)).sum = (l.map f).sum + (l.map g).sum := by
  induction l with
  | nil => rfl
  | cons x t ih => simp [ih]; omega

theorem sum_indicator_zero (keys : List String) (cl : String)
    (h : cl ∉ keys) :
    (keys.map (fun k => if cl = k then (1 : ℕ) else 0)).sum = 0 := by
  induction keys with
  | nil => rfl
  | cons k t ih =>
    simp only [List.mem_cons, not_or] at h
    simp [h.1, ih h.2]

theorem sum_indicator_one (keys : List String) (cl : String)
    (hnd : keys.Nodup) (h : cl ∈ keys) :
    (keys.map (fun k => if cl = k then (1 : ℕ) else 0)).sum = 1 := by
  induction keys with
  | nil => simp at h
  | cons k t ih =>
    simp only [List.nodup_cons] at hnd
    rcases List.mem_cons.mp h with rfl | ht
    · simp [sum_indicator_zero t cl hnd.1]
    · have hne : cl ≠ k := fun he => hnd.1 (he ▸ ht)
      simp [hne, ih hnd.2 ht]

/-- The contribution of a single agent to the per-link counts: 1 when the
agent is moving (its link is then found), 0 otherwise. -/
theorem sum_countedOn (links : List (String × Link)) (a : Individual)
    (hnd : (links.map Prod.fst).Nodup)
    (hk : a.en_route = true → a.at_node = false →
      (mapFind? links a.cur_link).isSome = true) :
    (links.map
        (fun p => if countedOn a p.1 = true then (1 : ℕ) else 0)).sum =
      if a.en_route && !a.at_node then 1 else 0 := by
  by_cases hm : a.en_route = true ∧ a.at_node = false
  · obtain ⟨h1, h2⟩ := hm
    have hmem : a.cur_link ∈ links.map Prod.fst :=
      (mapFind?_isSome_iff_mem links a.cur_link).mp (hk h1 h2)
    have hfun : (fun p : String × Link =>
        if countedOn a p.1 = true then (1 : ℕ) else 0) =
        (fun k => if a.cur_link = k then (1 : ℕ) else 0) ∘ Prod.fst := by
      funext p
      simp [countedOn, h1, h2]
    rw [hfun, ← List.map_map, sum_indicator_one _ _ hnd hmem]
    simp [h1, h2]
  · have hz : ∀ p ∈ links,
        (if countedOn a p.1 = true then (1 : ℕ) else 0) = 0 := by
      intro p _
      have hcc : countedOn a p.1 = false := by
        cases hb : a.at_node with
        | true => exact countedOn_of_at_node a p.1 hb
        | false =>
          have he : a.en_route = false := by
            cases he : a.en_route with
            | false => rfl
            | true => exact absurd ⟨he, hb⟩ hm
          simp [countedOn, he]
      simp [hcc]
    have hsum : (links.map
        (fun p => if countedOn a p.1 = true then (1 : ℕ) else 0)).sum = 0 := by
      apply List.sum_eq_zero
      intro x hx
      obtain ⟨p, hp, rfl⟩ := List.mem_map.mp hx
      exact hz p hp
    rw [hsum]
    have hmov : (a.en_route && !a.at_node) = false := by
      cases he : a.en_route with
      | false => simp
      | true =>
        cases hb : a.at_node with
        | true => simp [hb]
        | false => exact absurd ⟨he, hb⟩ hm
    rw [hmov]
    simp

/-- Summing the per-link agent counts over a key-nodup link map counts
each moving agent exactly once. -/
theorem sum_occCount (links : List (String × Link))
    (agents : List Individual)
    (hnd : (links.map Prod.fst).Nodup)
    (hk : ∀ a ∈ agents, a.en_route = true → a.at_node = false →
      (mapFind? links a.cur_link).isSome = true) :
    (links.map (fun p => occCount agents p.1)).sum =
      (agents.filter (fun a => a.en_route && !a.at_node)).length := by
  induction agents with
  | nil =>
    simp only [List.filter_nil, List.length_nil]
    apply List.sum_eq_zero
    intro x hx
    obtain ⟨p, hp, rfl⟩ := List.mem_map.mp hx
    rfl
  | cons a rest ih =>
    have hfun : ∀ p ∈ links, occCount (a :: rest) p.1 =
        (if countedOn a p.1 = true then (1 : ℕ) else 0) +
          occCount rest p.1 :=
      fun p _ => occCount_cons a rest p.1
    rw [List.map_congr_left hfun, sum_map_add,
      sum_countedOn links a hnd (hk a (List.mem_cons_self a rest)),
      ih (fun b hb => hk b (List.mem_cons_of_mem a hb)),
      List.filter_cons]
    cases hmov : (a.en_route && !a.at_node) <;> simp [hmov, Nat.add_comm]

/-- `setNextTrip` parks the agent: at a node, not en route. -/
theorem setNextTrip_at_node (ag : Individual) (net : Network) (t : ℚ)
    (a : Individual) (h : ag.setNextTrip net t = some a) :
    a.at_node = true ∧ a.en_route = false := by
  unfold Individual.setNextTrip at h
  simp only [List.head?_drop] at h
  cases h1 : ag.trips[1]? with
  | none => rw [h1] at h; exact absurd h (by simp)
  | some trip =>
    rw [h1] at h
    simp only at h
    cases h2 : net.computePath trip.id_origin trip.id_destination true with
    | none => rw [h2] at h; exact absurd h (by simp)
    | some path =>
      rw [h2] at h
      simp only at h
      cases h3 : mapFind? net.nodes trip.id_origin with
      | none => rw [h3] at h; exact absurd h (by simp)
      | some node =>
        rw [h3] at h
        simp only [Option.some_inj] at h
        refine ⟨?_, ?_⟩ <;> rw [← h]

/-- Everything C8 needs from a successful arrive-node transition: the
traversed link's occupancy is decremented and any surviving agent is at a
node. -/
theorem arriveNode_spec (m : Model) (ag0 : Individual) (m' : Model)
    (keep : Option Individual)
    (h : Model.arriveNode m ag0 = some (m', keep)) :
    m'.network.links =
      mapModify m.network.links ag0.cur_link Link.decrementAgents ∧
    (∀ a, keep = some a → a.at_node = true) := by
  unfold Model.arriveNode at h
  by_cases hp : ag0.path.length > 0
  · rw [if_pos hp] at h
    cases hdec : m.network.decrementAgentOnLink ag0.cur_link with
    | none => simp [hdec] at h
    | some net1 =>
      simp only [hdec] at h
      obtain ⟨-, hnet1⟩ := Network.decrementAgentOnLink_spec _ _ _ hdec
      cases h2 : mapFind? net1.links ag0.cur_link with
      | none => simp [h2] at h
      | some lnkP =>
        simp only [h2] at h
        cases h3 : mapFind? net1.nodes lnkP.end_node_id with
        | none => simp [h3] at h
        | some newNode =>
          simp only [h3, Option.some_inj, Prod.mk.injEq] at h
          obtain ⟨hm, hk⟩ := h
          constructor
          · rw [← hm, hnet1]
          · intro a ha
            rw [← hk] at ha
            injection ha with ha
            rw [← ha]
  · rw [if_neg hp] at h
    cases h1 : ag0.trips.head? with
    | none => simp [h1] at h
    | some trip =>
      simp only [h1] at h
      cases hdec : m.network.decrementAgentOnLink ag0.cur_link with
      | none => simp [hdec] at h
      | some net1 =>
        simp only [hdec] at h
        obtain ⟨-, hnet1⟩ := Network.decrementAgentOnLink_spec _ _ _ hdec
        by_cases htr : ag0.trips.length > 1
        · rw [if_pos htr] at h
          cases hsn : ag0.setNextTrip net1 m.time with
          | none => simp [hsn] at h
          | some ag1 =>
            simp only [hsn, Option.some_inj, Prod.mk.injEq] at h
            obtain ⟨hm, hk⟩ := h
            constructor
            · rw [← hm, hnet1]
            · intro a ha
              rw [← hk] at ha
              injection ha with ha
              rw [← ha]
              exact (setNextTrip_at_node _ _ _ _ hsn).1
        · rw [if_neg htr] at h
          simp only [Option.some_inj, Prod.mk.injEq] at h
          obtain ⟨hm, hk⟩ := h
          constructor
          · rw [← hm, hnet1]
          · intro a ha
            rw [← hk] at ha
            exact absurd ha (by simp)

/-- The three outcomes of one loop iteration: the agent is left as is (not
yet due), departs onto a link whose occupancy is incremented, or arrives
(its link decremented, the survivor parked at a node). -/
theorem processAgent_spec (m : Model) (ag : Individual) (m1 : Model)
    (keep : Option Individual)
    (h : Model.processAgent m ag = some (m1, keep)) :
    (m1 = m ∧ keep = some (ag.decreaseRemainingTime 1)) ∨
    (ag.at_node = true ∧ ∃ (ℓ : String) (lnk : Link) (a2 : Individual),
      mapFind? m.network.links ℓ = some lnk ∧
      m1.network.links = mapModify m.network.links ℓ Link.increaseAgents ∧
      keep = some a2 ∧ a2.en_route = true ∧ a2.at_node = false ∧
      a2.cur_link = ℓ) ∨
    (ag.at_node = false ∧
      m1.network.links =
        mapModify m.network.links ag.cur_link Link.decrementAgents ∧
      (∀ a, keep = some a → a.at_node = true)) := by
  simp only [Model.processAgent] at h
  by_cases hrt : (ag.decreaseRemainingTime 1).remaining_time ≤
      m.time_tolerance
  · rw [if_pos hrt] at h
    by_cases han : (ag.decreaseRemainingTime 1).at_node = true
    · rw [if_pos han] at h
      cases hd : Model.departNode m (ag.decreaseRemainingTime 1) with
      | none => rw [hd] at h; exact absurd h (by simp)
      | some pr =>
        obtain ⟨mD, ag2⟩ := pr
        rw [hd] at h
        simp only [Option.some_inj, Prod.mk.injEq] at h
        obtain ⟨hm, hk⟩ := h
        obtain ⟨ℓ0, ℓ, b, lnk, h1, h2, h3, h4, h5, h6, h7, h8, h9, h10,
          h11, h12, h13, h14, h15, h16⟩ := departNode_spec _ _ _ _ hd
        refine Or.inr (Or.inl ⟨han, ℓ, lnk, ag2, h3, ?_, hk.symm, h13,
          h12, h11⟩)
        rw [← hm, h4]
    · rw [if_neg han] at h
      obtain ⟨hnet, hkeep⟩ := arriveNode_spec _ _ _ _ h
      have hat : ag.at_node = false := by
        cases hb : ag.at_node with
        | false => rfl
        | true =>
          exact absurd
            (show (ag.decreaseRemainingTime 1).at_node = true from hb) han
      exact Or.inr (Or.inr ⟨hat, hnet, hkeep⟩)
  · rw [if_neg hrt] at h
    simp only [Option.some_inj, Prod.mk.injEq] at h
    exact Or.inl ⟨h.1.symm, h.2.symm⟩

/-- The agent loop preserves the occupancy bookkeeping: the per-link
counters track the agents counted on each link, every on-link agent's
link stays a key of the map, the key list stays nodup, and the population
stays below the 32-bit wrap bound. -/
theorem stepAgents_inv (rest : List Individual) :
    ∀ (m : Model) (acc : List Individual) (m' : Model)
      (acc' : List Individual),
      Model.stepAgents m rest acc = some (m', acc') →
      linksAgentsInv m.network.links (acc ++ rest) →
      agentsKeysOk m.network.links (acc ++ rest) →
      (m.network.links.map Prod.fst).Nodup →
      (acc ++ rest).length < 2 ^ 32 →
      linksAgentsInv m'.network.links acc' ∧
      agentsKeysOk m'.network.links acc' ∧
      (m'.network.links.map Prod.fst).Nodup ∧ acc'.length < 2 ^ 32 := by
  induction rest with
  | nil =>
    intro m acc m' acc' h hinv hkeys hnd hlen
    have heq : Model.stepAgents m [] acc = some (m, acc) := rfl
    rw [heq, Option.some_inj, Prod.mk.injEq] at h
    obtain ⟨h1, h2⟩ := h
    subst h1
    subst h2
    simp only [List.append_nil] at hinv hkeys hlen
    exact ⟨hinv, hkeys, hnd, hlen⟩
  | cons ag rest ih =>
    intro m acc m' acc' h hinv hkeys hnd hlen
    rw [show Model.stepAgents m (ag :: rest) acc =
        (match Model.processAgent m ag with
         | none => none
         | some (m1, keep) =>
           Model.stepAgents m1 rest
             (match keep with
              | some a => acc ++ [a]
              | none => acc)) from rfl] at h
    cases hp : Model.processAgent m ag with
    | none => rw [hp] at h; exact absurd h (by simp)
    | some pr =>
      obtain ⟨m1, keep⟩ := pr
      rw [hp] at h
      rcases processAgent_spec m ag m1 keep hp with
        ⟨hm1, hkeep⟩ |
        ⟨hat, ℓ, lnk, a2, hfind, hlinks, hkeep, hen2, hat2, hcl2⟩ |
        ⟨hat, hlinks, hkeep⟩
      · -- the agent was not due yet: it is carried over unchanged but for
        -- its remaining time
        subst hkeep
        refine ih m1 (acc ++ [ag.decreaseRemainingTime 1]) m' acc' h
          ?_ ?_ ?_ ?_
        · intro k lnk hfk
          rw [hm1] at hfk
          rw [hinv k lnk hfk]
          simp [occCount_append, occCount_cons, occCount_nil,
            countedOn_decrease]
        · intro a ha hatn
          have hmem := ha
          simp only [List.mem_append, List.mem_cons, List.not_mem_nil,
            or_false] at hmem
          rw [hm1]
          rcases hmem with (hacc | heq) | hrest
          · exact hkeys a (by simp [hacc]) hatn
          · subst heq
            have hag : ag.at_node = false := hatn
            obtain ⟨he, hs⟩ := hkeys ag (by simp) hag
            exact ⟨he, hs⟩
          · exact hkeys a (by simp [hrest]) hatn
        · rw [hm1]; exact hnd
        · have hl := hlen
          simp only [List.length_append, List.length_cons,
            List.length_nil] at hl ⊢
          omega
      · -- depart: the entered link gains the agent
        subst hkeep
        refine ih m1 (acc ++ [a2]) m' acc' h ?_ ?_ ?_ ?_
        · intro k lnk1 hfk
          rw [hlinks] at hfk
          have hag0 : countedOn ag k = false :=
            countedOn_of_at_node ag k hat
          by_cases hkl : ℓ = k
          · subst hkl
            rw [mapFind?_mapModify_self _ _ _ lnk hfind] at hfk
            injection hfk with hfk
            subst hfk
            have hn := hinv ℓ lnk hfind
            have ha2 : countedOn a2 ℓ = true :=
              (countedOn_eq_true_iff a2 ℓ).mpr ⟨hen2, hat2, hcl2⟩
            have hb1 : occCount acc ℓ + occCount rest ℓ + 1 < 2 ^ 32 := by
              have hx1 := occCount_le_length acc ℓ
              have hx2 := occCount_le_length rest ℓ
              have hl := hlen
              simp only [List.length_append, List.length_cons] at hl
              omega
            show (lnk.n_agents + 1) % 2 ^ 32 = _
            rw [hn]
            simp [occCount_append, occCount_cons, occCount_nil,
              hag0, ha2]
            omega
          · rw [mapFind?_mapModify_ne _ _ _ _ hkl] at hfk
            rw [hinv k lnk1 hfk]
            have ha2 : countedOn a2 k = false := by
              cases hcc : countedOn a2 k with
              | false => rfl
              | true =>
                obtain ⟨-, -, hc⟩ := (countedOn_eq_true_iff a2 k).mp hcc
                rw [hcl2] at hc
                exact absurd hc hkl
            simp [occCount_append, occCount_cons, occCount_nil,
              hag0, ha2]
        · intro a ha hatn
          have hmem := ha
          simp only [List.mem_append, List.mem_cons, List.not_mem_nil,
            or_false] at hmem
          rcases hmem with (hacc | heq) | hrest
          · obtain ⟨he, hs⟩ := hkeys a (by simp [hacc]) hatn
            exact ⟨he, by rw [hlinks, mapFind?_isSome_mapModify]; exact hs⟩
          · subst heq
            refine ⟨hen2, ?_⟩
            rw [hlinks, hcl2, mapFind?_mapModify_self _ _ _ lnk hfind]
            rfl
          · obtain ⟨he, hs⟩ := hkeys a (by simp [hrest]) hatn
            exact ⟨he, by rw [hlinks, mapFind?_isSome_mapModify]; exact hs⟩
        · rw [hlinks, mapModify_map_fst]; exact hnd
        · have hl := hlen
          simp only [List.length_append, List.length_cons,
            List.length_nil] at hl ⊢
          omega
      · -- arrive: the traversed link loses the agent
        obtain ⟨hen, hsm⟩ := hkeys ag (by simp) hat
        obtain ⟨lnkC, hfindC⟩ := Option.isSome_iff_exists.mp hsm
        have hagc : countedOn ag ag.cur_link = true :=
          (countedOn_eq_true_iff ag ag.cur_link).mpr ⟨hen, hat, rfl⟩
        have hagne : ∀ k, ag.cur_link ≠ k → countedOn ag k = false := by
          intro k hkc
          cases hcc : countedOn ag k with
          | false => rfl
          | true =>
            obtain ⟨-, -, hc⟩ := (countedOn_eq_true_iff ag k).mp hcc
            exact absurd hc hkc
        have hkeysNew : ∀ (extra : List Individual),
            (∀ a ∈ extra, a.at_node = true) →
            agentsKeysOk m1.network.links ((acc ++ extra) ++ rest) := by
          intro extra hextra a ha hatn
          have hmem := ha
          simp only [List.mem_append] at hmem
          rcases hmem with hacc | hrest
          · rcases hacc with hacc | hex
            · obtain ⟨he, hs⟩ := hkeys a (by simp [hacc]) hatn
              exact ⟨he,
                by rw [hlinks, mapFind?_isSome_mapModify]; exact hs⟩
            · rw [hextra a hex] at hatn
              exact absurd hatn (by simp)
          · obtain ⟨he, hs⟩ := hkeys a (by simp [hrest]) hatn
            exact ⟨he, by rw [hlinks, mapFind?_isSome_mapModify]; exact hs⟩
        have hinvNew : ∀ (extra : List Individual),
            (∀ a ∈ extra, a.at_node = true) →
            linksAgentsInv m1.network.links ((acc ++ extra) ++ rest) := by
          intro extra hextra k lnk1 hfk
          rw [hlinks] at hfk
          have hexc : occCount extra k = 0 := by
            have hnilf : extra.filter (fun a => countedOn a k) = [] := by
              rw [List.filter_eq_nil_iff]
              intro a ha
              simp [countedOn_of_at_node a k (hextra a ha)]
            simp [occCount, hnilf]
          by_cases hkc : ag.cur_link = k
          · subst hkc
            rw [mapFind?_mapModify_self _ _ _ lnkC hfindC] at hfk
            injection hfk with hfk
            subst hfk
            have hn := hinv _ lnkC hfindC
            have hb : occCount acc ag.cur_link +
                occCount rest ag.cur_link + 1 < 2 ^ 32 + 1 := by
              have hx1 := occCount_le_length acc ag.cur_link
              have hx2 := occCount_le_length rest ag.cur_link
              have hl := hlen
              simp only [List.length_append, List.length_cons] at hl
              omega
            show (lnkC.n_agents + (2 ^ 32 - 1)) % 2 ^ 32 = _
            rw [hn]
            simp [occCount_append, occCount_cons, occCount_nil,
              hagc, hexc]
            omega
          · rw [mapFind?_mapModify_ne _ _ _ _ hkc] at hfk
            rw [hinv k lnk1 hfk]
            simp [occCount_append, occCount_cons, occCount_nil,
              hagne k hkc, hexc]
        have hndNew : (m1.network.links.map Prod.fst).Nodup := by
          rw [hlinks, mapModify_map_fst]; exact hnd
        cases keep with
        | none =>
          refine ih m1 acc m' acc' h ?_ ?_ hndNew ?_
          · have hh := hinvNew [] (by simp)
            simpa using hh
          · have hh := hkeysNew [] (by simp)
            simpa using hh
          · have hl := hlen
            simp only [List.length_append, List.length_cons] at hl ⊢
            omega
        | some a2 =>
          have hat2 : a2.at_node = true := hkeep a2 rfl
          refine ih m1 (acc ++ [a2]) m' acc' h ?_ ?_ hndNew ?_
          · exact hinvNew [a2] (by simpa using hat2)
          · exact hkeysNew [a2] (by simpa using hat2)
          · have hl := hlen
            simp only [List.length_append, List.length_cons,
              List.length_nil] at hl ⊢
            omega

/-- C8: on a single worker, after every full execution of `Model.step`
from a state satisfying the agent invariants, the sum over all links of
the occupancy counters equals the number of local agents with
`en_route = true` and `at_node = false`. -/
theorem C8_occupancy_conservation (m m' : Model)
    (hinv : Model.agentInvariants m) (hstep : Model.step m = some m') :
    Model.totalOccupancy m' = Model.movingCount m' := by
  obtain ⟨hlink, hagent, hnd, hlen⟩ := hinv
  simp only [Model.step] at hstep
  cases hs : Model.stepAgents { m with time := m.time + 1 } m.agents []
    with
  | none => rw [hs] at hstep; exact absurd hstep (by simp)
  | some pr =>
    obtain ⟨m2, agents2⟩ := pr
    rw [hs] at hstep
    simp only [Option.some_inj] at hstep
    have hmain := stepAgents_inv m.agents { m with time := m.time + 1 }
      [] m2 agents2 hs
      (by
        intro k lnk hf
        have hmem := mapFind?_mem _ _ _ hf
        rw [List.nil_append]
        exact hlink (k, lnk) hmem)
      (by
        intro a ha hatn
        exact hagent a (by simpa using ha) hatn)
      hnd
      (by simpa using hlen)
    obtain ⟨hinv2, hkeys2, hnd2, -⟩ := hmain
    rw [← hstep]
    show (m2.network.links.map (fun p => p.2.n_agents)).sum =
      (agents2.filter (fun a => a.en_route && !a.at_node)).length
    have hpt : ∀ p ∈ m2.network.links,
        p.2.n_agents = occCount agents2 p.1 := by
      intro p hp
      exact hinv2 p.1 p.2 (mapFind?_of_mem_nodup _ hnd2 p hp)
    rw [List.map_congr_left hpt]
    exact sum_occCount _ _ hnd2 (fun a ha h1 h2 => (hkeys2 a ha h2).2)

/-- Witness for C8: the one-agent scenario `exModel2` satisfies the agent
invariants, its step succeeds, and afterwards the single occupied link
matches the single moving agent. -/
theorem C8_occupancy_conservation_witness :
    Model.agentInvariants exModel2 ∧
    Model.step exModel2 = some exModel2Stepped ∧
    Model.totalOccupancy exModel2Stepped =
      Model.movingCount exModel2Stepped := by
  have ha : Model.linkInvariant exModel2 := by
    unfold Model.linkInvariant
    with_unfolding_all decide
  have hb : Model.agentInvariant exModel2 := by
    unfold Model.agentInvariant
    with_unfolding_all decide
  have h1 : Model.agentInvariants exModel2 :=
    ⟨ha, hb, by with_unfolding_all decide, by with_unfolding_all decide⟩
  have h2 : Model.step exModel2 = some exModel2Stepped := by
    with_unfolding_all rfl
  exact ⟨h1, h2, C8_occupancy_conservation exModel2 exModel2Stepped h1 h2⟩

end BATSim
